import Mathlib

/-! Verification of the calendario weekly-calendar application core.

The definitions below are a shallow embedding of the TypeScript source:
JavaScript numbers that may be NaN are modelled as `Option ℚ` (`none` is NaN),
JavaScript strings as `String`, arrays as `List`, objects with string keys as
insertion-ordered association lists, and the nondeterministic id generators
(`Date.now().toString()` and the todo-id generator) as an explicit supply
`gen : ℕ → String` consumed left to right.
-/

namespace Calendario

/-- A JavaScript number that may be NaN: `none` models NaN, `some q` a finite
value (the modelled fragment never produces infinities). -/
abbrev JsNum := Option ℚ

/-- Lift a binary operation to JS numbers; NaN propagates. -/
def jsBin (f : ℚ → ℚ → ℚ) (a b : JsNum) : JsNum :=
  a.bind fun x => b.map fun y => f x y

def jsAdd : JsNum → JsNum → JsNum := jsBin (· + ·)

def jsSub : JsNum → JsNum → JsNum := jsBin (· - ·)

def jsMul : JsNum → JsNum → JsNum := jsBin (· * ·)

/-- JS division; the source only divides by the nonzero constant 60. -/
def jsDiv : JsNum → JsNum → JsNum := jsBin (· / ·)

def jsMax : JsNum → JsNum → JsNum := jsBin max

def jsMin : JsNum → JsNum → JsNum := jsBin min

/-- JS `<` on numbers: every comparison involving NaN is false. -/
def jsLt (a b : JsNum) : Bool :=
  match a, b with
  | some x, some y => decide (x < y)
  | _, _ => false

/-- Value of a digit string (already checked to consist of digits). -/
def digitsVal (cs : List Char) : ℕ :=
  cs.foldl (fun a c => a * 10 + (c.toNat - 48)) 0

/-- Unsigned decimal numeral: digits, optionally followed by a dot and more
digits, at least one digit in total; anything else is NaN. -/
def parseUnsignedDecimal (cs : List Char) : Option ℚ :=
  let ip := cs.takeWhile Char.isDigit
  let rest := cs.dropWhile Char.isDigit
  match rest with
  | [] => if ip = [] then none else some (digitsVal ip)
  | '.' :: fp =>
      if fp.all Char.isDigit ∧ (ip ≠ [] ∨ fp ≠ []) then
        some ((digitsVal ip : ℚ) + (digitsVal fp : ℚ) / (10 : ℚ) ^ fp.length)
      else none
  | _ => none

/-- Strip leading and trailing whitespace, as JS `Number` does. -/
def jsTrim (cs : List Char) : List Char :=
  ((cs.dropWhile Char.isWhitespace).reverse.dropWhile Char.isWhitespace).reverse

/-- Models the JavaScript `Number(string)` conversion on the fragment the
source can produce: surrounding whitespace is dropped, the empty string is 0,
an optionally signed decimal numeral has its value, and anything else is NaN
(hex, exponent and Infinity forms never occur in calendar times; they are
mapped to NaN here). -/
def jsNumberL (cs : List Char) : JsNum :=
  let t := jsTrim cs
  if t = [] then some 0
  else if t.headD ' ' = '-' then (parseUnsignedDecimal t.tail).map Neg.neg
  else if t.headD ' ' = '+' then parseUnsignedDecimal t.tail
  else parseUnsignedDecimal t

/-- JS `String.prototype.split` with a single-character separator. -/
def splitOnChar (sep : Char) : List Char → List (List Char)
  | [] => [[]]
  | c :: rest =>
    match splitOnChar sep rest with
    | [] => [[]]
    | h :: t => if c = sep then [] :: h :: t else (c :: h) :: t

/-- Source function `timeToMinutes` from CalendarGrid: empty input or input without a colon
is 0; otherwise the first two colon-separated components are converted with
`Number`, `24:00` is special-cased to 1440, and the result is
hours * 60 + minutes (NaN when a component is not numeric). -/
def timeToMinutes (time : String) : JsNum :=
  if time = "" ∨ ¬ time.toList.contains ':' then some 0
  else
    let parts := (splitOnChar ':' time.toList).map jsNumberL
    let hoursN := parts.getD 0 none
    let minutesN := parts.getD 1 none
    if hoursN = some 24 ∧ minutesN = some 0 then some 1440
    else jsAdd (jsMul hoursN (some 60)) minutesN

/-- The ten decimal digit characters, for building concrete time strings. -/
def digitChar : ℕ → Char
  | 0 => '0'
  | 1 => '1'
  | 2 => '2'
  | 3 => '3'
  | 4 => '4'
  | 5 => '5'
  | 6 => '6'
  | 7 => '7'
  | 8 => '8'
  | 9 => '9'
  | _ => '*'

/-- The zero-padded rendering of an hour/minute pair as an `HH:mm` string. -/
def mkTime (h m : ℕ) : String :=
  String.mk [digitChar (h / 10), digitChar (h % 10), ':', digitChar (m / 10), digitChar (m % 10)]

/-- A to-do entry attached to an event (`types.ts`). -/
structure ToDoItem where
  id : String
  text : String
  completed : Bool
deriving DecidableEq, Repr

/-- A JS `Date` value, modelled by the civil calendar date it denotes.
The spec data model types `Event.date` as a calendar date with no time
component, and the reconciler only builds dates from ISO `YYYY-MM-DD`
strings, so this is the faithful fragment. -/
structure JsDate where
  year : ℕ
  month : ℕ
  day : ℕ
deriving DecidableEq, Repr

/-- A calendar event (`types.ts`). The optional TS `description` is stored
as a plain string (`undefined` and the empty string behave identically in
every modelled code path). -/
structure Event where
  id : String
  title : String
  description : String
  date : JsDate
  startTime : String
  endTime : String
  color : String
  todos : List ToDoItem
deriving DecidableEq, Repr

/-- Start of an event in minutes (JS number, possibly NaN). -/
def startN (e : Event) : JsNum := timeToMinutes e.startTime

/-- End of an event in minutes (JS number, possibly NaN). -/
def endN (e : Event) : JsNum := timeToMinutes e.endTime

/-- The filter predicate of `concurrentEvents`:
`Math.max(myStart, otherStart) < Math.min(myEnd, otherEnd)`. -/
def overlapsB (event o : Event) : Bool :=
  jsLt (jsMax (startN event) (startN o)) (jsMin (endN event) (endN o))

/-- The concurrency cluster of `event` inside the day's event list. -/
def concurrentCluster (dayEvents : List Event) (event : Event) : List Event :=
  dayEvents.filter (fun o => overlapsB event o)

/-- Sign of `a.id.localeCompare(b.id)`, modelled as lexicographic string
comparison (the ids the app generates are plain ASCII). -/
def strSign (a b : String) : ℚ :=
  if a < b then -1 else if b < a then 1 else 0

/-- The sort comparator of `concurrentEvents`: start-minute difference,
then id comparison on ties.  A NaN comparator value is clamped to 0, as
the ECMAScript sort specification does. -/
def eventCompare (a b : Event) : ℚ :=
  match jsSub (startN a) (startN b) with
  | none => 0
  | some d => if d ≠ 0 then d else strSign a.id b.id

/-- The (total) non-strict order induced by the comparator. -/
def evLe (a b : Event) : Prop := eventCompare a b ≤ 0

instance : DecidableRel evLe := fun a b => inferInstanceAs (Decidable (eventCompare a b ≤ 0))

/-- JS `Array.prototype.sort` with the event comparator, modelled by a stable
sort (the ECMAScript sort is stable and, for a consistent comparator,
produces exactly the sorted order). -/
def sortEvents (l : List Event) : List Event := List.insertionSort evLe l

/-- The sorted concurrency cluster computed for `event`. -/
def concurrentSorted (dayEvents : List Event) (event : Event) : List Event :=
  sortEvents (concurrentCluster dayEvents event)

/-- Source expression `concurrentEvents.length || 1`. -/
def numConcurrent (dayEvents : List Event) (event : Event) : ℕ :=
  if (concurrentSorted dayEvents event).length = 0 then 1
  else (concurrentSorted dayEvents event).length

/-- JS `Array.prototype.findIndex`: index of the first match, `-1` if none. -/
def jsFindIndex (p : Event → Bool) (l : List Event) : ℤ :=
  match l.findIdx? p with
  | some i => (i : ℤ)
  | none => -1

/-- Source value `myIndex`: position of the event (found by id) in its sorted cluster. -/
def myIndexZ (dayEvents : List Event) (event : Event) : ℤ :=
  jsFindIndex (fun e => e.id = event.id) (concurrentSorted dayEvents event)

/-- Source value `width = 100 / numConcurrent` (a CSS percentage). -/
def eventWidth (dayEvents : List Event) (event : Event) : ℚ :=
  100 / (numConcurrent dayEvents event : ℚ)

/-- Source value `left = myIndex * width` (a CSS percentage). -/
def eventLeft (dayEvents : List Event) (event : Event) : ℚ :=
  (myIndexZ dayEvents event : ℚ) * eventWidth dayEvents event

/-- The width fraction of the day column the event occupies (the CSS
percentage rescaled to a fraction, the unit the spec states). -/
def widthFraction (dayEvents : List Event) (event : Event) : ℚ :=
  eventWidth dayEvents event / 100

/-- The left offset fraction of the day column (CSS percentage rescaled). -/
def leftOffsetFraction (dayEvents : List Event) (event : Event) : ℚ :=
  eventLeft dayEvents event / 100

/-- Constant `HOUR_HEIGHT_IN_REM` as the source fixes it.  The vertical layout is
stated for an arbitrary hour height `H`, which the code instantiates with
this constant. -/
def HOUR_HEIGHT_IN_REM : ℚ := 7

/-- Source value `durationInMinutes = Math.max(5, endMinutes - startMinutes)`. -/
def durationInMinutes (event : Event) : JsNum :=
  jsMax (some 5) (jsSub (endN event) (startN event))

/-- Source value `top = (startMinutes / 60) * hourHeight`. -/
def eventTop (H : ℚ) (event : Event) : JsNum :=
  jsMul (jsDiv (startN event) (some 60)) (some H)

/-- Source value `height = (durationInMinutes / 60) * hourHeight`. -/
def eventHeight (H : ℚ) (event : Event) : JsNum :=
  jsMul (jsDiv (durationInMinutes event) (some 60)) (some H)

/-- The spec ordering of a cluster: start minutes ascending, id ascending
on ties (stated on events whose times parse to numbers). -/
def specLexLe (a b : Event) : Prop :=
  ∃ sa sb : ℚ, startN a = some sa ∧ startN b = some sb ∧
    (sa < sb ∨ (sa = sb ∧ a.id ≤ b.id))

/-- The spec tie-break strict order: `e` strictly before `o`. -/
def specBefore (a b : Event) : Prop :=
  ∃ sa sb : ℚ, startN a = some sa ∧ startN b = some sb ∧
    (sa < sb ∨ (sa = sb ∧ a.id < b.id))

/-- Two assigned horizontal slots are disjoint. -/
def slotsDisjoint (dayEvents : List Event) (e o : Event) : Prop :=
  leftOffsetFraction dayEvents e + widthFraction dayEvents e ≤ leftOffsetFraction dayEvents o ∨
  leftOffsetFraction dayEvents o + widthFraction dayEvents o ≤ leftOffsetFraction dayEvents e

/-- All events of a list have numeric (non-NaN) start and end times. -/
def NumericTimes (l : List Event) : Prop :=
  ∀ e ∈ l, (startN e).isSome ∧ (endN e).isSome

def cA : Event := ⟨"a", "A", "", ⟨2024, 5, 1⟩, "09:00", "10:00", "blue", []⟩

def cB : Event := ⟨"b", "B", "", ⟨2024, 5, 1⟩, "09:30", "10:30", "blue", []⟩

def cC : Event := ⟨"c", "C", "", ⟨2024, 5, 1⟩, "10:00", "11:00", "blue", []⟩

def cD : Event := ⟨"d", "D", "", ⟨2024, 5, 1⟩, "11:00", "12:00", "blue", []⟩

def cZ : Event := ⟨"z", "Z", "", ⟨2024, 5, 1⟩, "10:00", "09:00", "blue", []⟩

def cDay : List Event := [cA, cB, cC]

def AVAILABLE_COLORS : List String :=
  ["blue", "green", "red", "purple", "yellow", "indigo",
   "pink", "orange", "teal", "cyan", "emerald", "gray"]

/-- The category mapping: a JS object with string keys, modelled as an
insertion-ordered association list with unique keys. -/
abbrev ColorMap := List (String × String)

def mapValues (map : ColorMap) : List String := map.map Prod.snd

structure TodoInput where
  id : Option String := none
  text : Option String := none
  completed : Option Bool := none
deriving DecidableEq, Repr

structure AssistantEventInput where
  id : Option String := none
  title : Option String := none
  description : Option String := none
  date : Option String := none
  startTime : Option String := none
  endTime : Option String := none
  color : Option String := none
  category : Option String := none
  todos : Option (List TodoInput) := none
deriving DecidableEq, Repr

inductive ActionType
  | create
  | update
  | delete
deriving DecidableEq, Repr

structure AssistantAction where
  type : ActionType
  event : Option AssistantEventInput := none
deriving DecidableEq, Repr

/-- JS `a || b` for an optional string: `b` when `a` is undefined or empty. -/
def jsOrStr (a : Option String) (b : String) : String :=
  match a with
  | some s => if s = "" then b else s
  | none => b

/-- JS `String.prototype.trim`. -/
def strTrim (s : String) : String := String.mk (jsTrim s.toList)

/-- ISO `YYYY-MM-DD` fragment of JS date parsing; any other string shape
(which the assistant contract does not produce) is treated as unparseable. -/
def jsDateParse (s : String) : Option JsDate :=
  match splitOnChar '-' s.toList with
  | [y, mo, d] =>
    if y.length = 4 ∧ mo.length = 2 ∧ d.length = 2 ∧
        (y ++ mo ++ d).all Char.isDigit ∧
        1 ≤ digitsVal mo ∧ digitsVal mo ≤ 12 ∧ 1 ≤ digitsVal d ∧ digitsVal d ≤ 31 then
      some ⟨digitsVal y, digitsVal mo, digitsVal d⟩
    else none
  | _ => none

/-- Source function `parseAssistantDate`: a missing or empty (falsy) value is null, and so
is a string that does not parse to a valid date. -/
def parseAssistantDate (value : Option String) : Option JsDate :=
  match value with
  | none => none
  | some s => if s = "" then none else jsDateParse s

/-- Source function `resolveEventColor`: a provided color that is one of the category
colors wins; else a named category with a truthy color; else the first
category color, or the first palette entry when no categories exist. -/
def resolveEventColor (input : Option AssistantEventInput) (map : ColorMap) : String :=
  let providedColor := (input.bind AssistantEventInput.color).getD ""
  let providedCategory := (input.bind AssistantEventInput.category).getD ""
  let fallbackColor := (mapValues map).headD (AVAILABLE_COLORS.headD "blue")
  if providedColor ≠ "" ∧ (mapValues map).contains providedColor then providedColor
  else if providedCategory ≠ "" ∧ ((List.lookup providedCategory map).getD "") ≠ "" then
    (List.lookup providedCategory map).getD ""
  else fallbackColor

/-- Source pattern `x || generated id`: a truthy provided id is kept; otherwise the next
generated id is drawn from the supply. -/
def generatedId (gen : ℕ → String) (c : ℕ) (provided : Option String) : String × ℕ :=
  match provided with
  | some s => if s = "" then (gen c, c + 1) else (s, c)
  | none => (gen c, c + 1)

def normaliseTodosGo (gen : ℕ → String) : ℕ → List TodoInput → List ToDoItem × ℕ
  | c, [] => ([], c)
  | c, t :: rest =>
    let idc := generatedId gen c t.id
    let restc := normaliseTodosGo gen idc.2 rest
    (⟨idc.1, t.text.getD "", t.completed.getD false⟩ :: restc.1, restc.2)

/-- Source function `normaliseTodos`: per-item defaulting with generated ids (the JS code
also drops non-object entries, which a typed input cannot contain). -/
def normaliseTodos (gen : ℕ → String) (c : ℕ) (todos : Option (List TodoInput)) :
    List ToDoItem × ℕ :=
  match todos with
  | none => ([], c)
  | some ts => normaliseTodosGo gen c ts

structure ReconcilerState where
  events : List Event
  counter : ℕ
deriving DecidableEq, Repr

/-- The create branch of `applyAssistantActions`. -/
def applyCreate (map : ColorMap) (gen : ℕ → String) (st : ReconcilerState)
    (input : AssistantEventInput) : ReconcilerState :=
  match parseAssistantDate input.date with
  | none => st
  | some d =>
    let idc := generatedId gen st.counter input.id
    let todosc := normaliseTodos gen idc.2 input.todos
    ⟨st.events ++
      [⟨idc.1,
        jsOrStr (input.title.map strTrim) "Nuovo evento",
        jsOrStr (input.description.map strTrim) "",
        d,
        jsOrStr input.startTime "09:00",
        jsOrStr input.endTime "10:00",
        resolveEventColor (some input) map,
        todosc.1⟩],
      todosc.2⟩

/-- The merged event an update produces for the matched stored event,
together with the advanced id-supply counter. -/
def mergeUpdate (map : ColorMap) (gen : ℕ → String) (c : ℕ)
    (input : AssistantEventInput) (event : Event) : Event × ℕ :=
  let parsedDate := parseAssistantDate input.date
  let todosc : Option (List ToDoItem) × ℕ :=
    match input.todos with
    | some ts =>
      let r := normaliseTodosGo gen c ts
      (some r.1, r.2)
    | none => (none, c)
  (⟨event.id,
    jsOrStr (input.title.map strTrim) event.title,
    (match input.description with
     | some ds => strTrim ds
     | none => event.description),
    parsedDate.getD event.date,
    jsOrStr input.startTime event.startTime,
    jsOrStr input.endTime event.endTime,
    (if input.color.getD "" ≠ "" ∨ input.category.getD "" ≠ "" then
      resolveEventColor (some input) map
     else event.color),
    todosc.1.getD event.todos⟩, todosc.2)

/-- Replace the element at one index, as the indexed `map` in the source
update branch does. -/
def updateAtIdx (f : Event → Event) : ℕ → List Event → List Event
  | _, [] => []
  | 0, e :: rest => f e :: rest
  | n + 1, e :: rest => e :: updateAtIdx f n rest

/-- The update branch of `applyAssistantActions`.  (The inner `get?` match
is exhaustiveness plumbing: a `findIdx?` hit is always in range.) -/
def applyUpdate (map : ColorMap) (gen : ℕ → String) (st : ReconcilerState)
    (input : AssistantEventInput) : ReconcilerState :=
  match input.id with
  | none => st
  | some targetId =>
    if targetId = "" then st
    else
      match st.events.findIdx? (fun e => e.id = targetId) with
      | none => st
      | some i =>
        match st.events.get? i with
        | none => st
        | some ev =>
          let merged := mergeUpdate map gen st.counter input ev
          ⟨updateAtIdx (fun _ => merged.1) i st.events, merged.2⟩

/-- The delete branch of `applyAssistantActions`. -/
def applyDelete (st : ReconcilerState) (input : Option AssistantEventInput) :
    ReconcilerState :=
  match input.bind AssistantEventInput.id with
  | none => st
  | some targetId =>
    if targetId = "" then st
    else ⟨st.events.filter (fun e => e.id ≠ targetId), st.counter⟩

def applyAssistantAction (map : ColorMap) (gen : ℕ → String) (st : ReconcilerState)
    (action : AssistantAction) : ReconcilerState :=
  match action.type with
  | ActionType.create =>
    match action.event with
    | none => st
    | some input => applyCreate map gen st input
  | ActionType.update =>
    match action.event with
    | none => st
    | some input => applyUpdate map gen st input
  | ActionType.delete => applyDelete st action.event

/-- Source function `applyAssistantActions`: an empty batch returns early, otherwise the
actions are applied in order, later actions seeing earlier effects. -/
def applyAssistantActions (map : ColorMap) (gen : ℕ → String)
    (actions : List AssistantAction) (events : List Event) : List Event :=
  if actions = [] then events
  else (actions.foldl (applyAssistantAction map gen) ⟨events, 0⟩).events

/-- The Repository invariants named by the spec: pairwise-unique ids,
startTime < endTime as minute offsets, every color referencing a live
category. -/
def RepoInvariants (map : ColorMap) (events : List Event) : Prop :=
  (events.map Event.id).Nodup ∧
  (∀ e ∈ events, jsLt (startN e) (endN e) = true) ∧
  (∀ e ∈ events, (mapValues map).contains e.color = true)

/-- Side conditions under which one action preserves the invariants: a
create must use a fresh id and a valid effective time range, an update
must leave the matched event with a valid effective time range. -/
def ActionOk (gen : ℕ → String) (st : ReconcilerState)
    (action : AssistantAction) : Prop :=
  match action.type, action.event with
  | ActionType.create, some input =>
    ∀ d, parseAssistantDate input.date = some d →
      ((generatedId gen st.counter input.id).1 ∉ st.events.map Event.id) ∧
      jsLt (timeToMinutes (jsOrStr input.startTime "09:00"))
        (timeToMinutes (jsOrStr input.endTime "10:00")) = true
  | ActionType.update, some input =>
    ∀ tid, input.id = some tid → tid ≠ "" →
      ∀ i ev, st.events.findIdx? (fun e => e.id = tid) = some i →
        st.events.get? i = some ev →
        jsLt (timeToMinutes (jsOrStr input.startTime ev.startTime))
          (timeToMinutes (jsOrStr input.endTime ev.endTime)) = true
  | _, _ => True

/-- The per-action side conditions along the whole batch, each stated on
the state the action actually sees. -/
def BatchOk (map : ColorMap) (gen : ℕ → String) :
    ReconcilerState → List AssistantAction → Prop
  | _, [] => True
  | st, a :: rest =>
    ActionOk gen st a ∧ BatchOk map gen (applyAssistantAction map gen st a) rest

structure CategoryDefinition where
  name : String
  color : String
deriving DecidableEq, Repr

/-- Trim category names and drop the blank ones, as the modal save does. -/
def trimCategories (cats : List CategoryDefinition) : List CategoryDefinition :=
  (cats.map (fun c => ⟨strTrim c.name, c.color⟩)).filter (fun c => c.name ≠ "")

/-- Source function `CategoryManagerModal.handleSave` validation: reject when the trimmed
set is empty, or two entries share a case-insensitive name, or two entries
share a color; otherwise the trimmed list is handed to the save callback. -/
def validateCategories (cats : List CategoryDefinition) :
    Except String (List CategoryDefinition) :=
  let trimmed := trimCategories cats
  if trimmed = [] then Except.error "Aggiungi almeno una categoria."
  else if ¬ ((trimmed.map (fun c => c.name.toLower)).Nodup) then
    Except.error "I nomi delle categorie devono essere unici."
  else if ¬ ((trimmed.map CategoryDefinition.color).Nodup) then
    Except.error "Ogni categoria deve avere un colore diverso."
  else Except.ok trimmed

structure AppState where
  events : List Event
  colorMap : ColorMap
  activeFilter : Option String
deriving DecidableEq, Repr

/-- JS object property assignment: overwrite in place or append. -/
def jsObjectSet (m : ColorMap) (k v : String) : ColorMap :=
  if m.any (fun p => p.1 = k) then m.map (fun p => if p.1 = k then (k, v) else p)
  else m ++ [(k, v)]

/-- The `reduce` building the next category object. -/
def buildColorMap (cats : List CategoryDefinition) : ColorMap :=
  cats.foldl (fun acc c => jsObjectSet acc c.name c.color) []

def withColor (e : Event) (c : String) : Event :=
  ⟨e.id, e.title, e.description, e.date, e.startTime, e.endTime, c, e.todos⟩

/-- Source function `handleSaveCategories` in App: replace the map, recolor events whose
color is no longer allowed to the fallback color, clear a stale filter. -/
def handleSaveCategories (cats : List CategoryDefinition) (st : AppState) : AppState :=
  if cats = [] then st
  else
    ⟨st.events.map (fun e =>
        if (cats.map CategoryDefinition.color).contains e.color then e
        else withColor e (((cats.head?).map CategoryDefinition.color).getD
          (AVAILABLE_COLORS.headD "blue"))),
      buildColorMap cats,
      (match st.activeFilter with
       | some f =>
         if f ≠ "" ∧ ¬ (cats.map CategoryDefinition.color).contains f then none
         else some f
       | none => none)⟩

/-- Operation `setCategories`: the modal validation composed with the app save; an
error surfaces a message and leaves the state untouched. -/
def setCategories (defs : List CategoryDefinition) (st : AppState) :
    AppState × Option String :=
  match validateCategories defs with
  | Except.error msg => (st, some msg)
  | Except.ok cats => (handleSaveCategories cats st, none)

/-- The payload `EventModal` hands to `onSave`. -/
structure EventDraft where
  id : Option String
  title : String
  description : String
  date : JsDate
  startTime : String
  endTime : String
  color : String
  todos : List ToDoItem
deriving DecidableEq, Repr

/-- The modal form state feeding `EventModal.handleSave`. -/
structure ModalState where
  editingId : Option String
  title : String
  description : String
  date : JsDate
  startTime : String
  endTime : String
  color : String
  todos : List ToDoItem
deriving DecidableEq, Repr

/-- Source function `EventModal.handleSave`: reject a blank title or `startTime >= endTime`
(JS string comparison); `none` models the early return that only sets the
error message. -/
def modalHandleSave (m : ModalState) : Option EventDraft :=
  if strTrim m.title = "" then none
  else if ¬ m.startTime < m.endTime then none
  else some ⟨m.editingId, m.title, m.description, m.date, m.startTime, m.endTime, m.color, m.todos⟩

/-- Source function `handleSaveEvent` in App: replace in place when the draft id matches a
stored event, else append under a generated id; no validation of its own. -/
def handleSaveEvent (genId : String) (d : EventDraft) (events : List Event) : List Event :=
  if jsOrStr d.id "" ≠ "" ∧ events.any (fun e => e.id = jsOrStr d.id "") then
    events.map (fun e =>
      if e.id = jsOrStr d.id "" then
        ⟨jsOrStr d.id "", d.title, d.description, d.date, d.startTime, d.endTime, d.color, d.todos⟩
      else e)
  else events ++ [⟨genId, d.title, d.description, d.date, d.startTime, d.endTime, d.color, d.todos⟩]

/-- Saving a draft through the modal: the validation gate, then the
repository save. -/
def saveDraftViaModal (genId : String) (m : ModalState) (events : List Event) : List Event :=
  match modalHandleSave m with
  | none => events
  | some d => handleSaveEvent genId d events

def c2Map : ColorMap := [("lavoro", "blue")]

def c2Gen : ℕ → String := fun _ => "g"

def c2Event : Event := ⟨"a", "T", "", ⟨2024, 5, 1⟩, "09:00", "10:00", "blue", []⟩

def c2Action : AssistantAction :=
  ⟨ActionType.create,
    some ⟨some "a", some "X", none, some "2024-05-01", some "10:00", some "09:00",
      none, none, none⟩⟩

def c2GoodAction : AssistantAction :=
  ⟨ActionType.create,
    some ⟨some "b", some "Y", none, some "2024-05-02", some "11:00", some "12:00",
      none, none, none⟩⟩

def c4Map : ColorMap := [("lavoro", "blue"), ("studio", "green")]

def c4Input : AssistantEventInput :=
  ⟨none, some "Riunione", none, some "2024-05-01", none, none, none, none, none⟩

def c6Defs : List CategoryDefinition := [⟨"lavoro", "blue"⟩, ⟨"studio", "blue"⟩]

def c6State : AppState := ⟨[c2Event], c2Map, none⟩

def c7Defs : List CategoryDefinition := [⟨"work", "red"⟩]

def c7State : AppState := ⟨[c2Event], c2Map, some "green"⟩

def badDraft : EventDraft := ⟨none, "", "", ⟨2024, 5, 1⟩, "09:00", "10:00", "blue", []⟩

def c8Modal1 : ModalState := ⟨none, "", "", ⟨2024, 5, 1⟩, "09:00", "10:00", "blue", []⟩

def c8Modal2 : ModalState := ⟨none, "X", "", ⟨2024, 5, 1⟩, "10:00", "09:00", "blue", []⟩

theorem jsAdd_some (a b : ℚ) : jsAdd (some a) (some b) = some (a + b) := rfl

theorem jsSub_some (a b : ℚ) : jsSub (some a) (some b) = some (a - b) := rfl

theorem jsMul_some (a b : ℚ) : jsMul (some a) (some b) = some (a * b) := rfl

theorem jsDiv_some (a b : ℚ) : jsDiv (some a) (some b) = some (a / b) := rfl

theorem jsMax_some (a b : ℚ) : jsMax (some a) (some b) = some (max a b) := rfl

theorem jsMin_some (a b : ℚ) : jsMin (some a) (some b) = some (min a b) := rfl

theorem jsLt_some (a b : ℚ) : jsLt (some a) (some b) = decide (a < b) := rfl

theorem jsLt_none_left (b : JsNum) : jsLt none b = false := rfl

theorem jsLt_none_right (a : JsNum) : jsLt a none = false := by
  unfold jsLt
  cases a <;> rfl

theorem jsSub_none_left (b : JsNum) : jsSub none b = none := rfl

theorem jsSub_none_right (a : JsNum) : jsSub a none = none := by
  cases a <;> rfl

theorem digitChar_ne_colon (n : ℕ) : digitChar n ≠ ':' := by
  unfold digitChar
  split <;> decide

theorem digitChar_ne_minus (n : ℕ) : digitChar n ≠ '-' := by
  unfold digitChar
  split <;> decide

theorem digitChar_ne_plus (n : ℕ) : digitChar n ≠ '+' := by
  unfold digitChar
  split <;> decide

theorem digitChar_not_ws (n : ℕ) : (digitChar n).isWhitespace = false := by
  unfold digitChar
  split <;> decide

theorem digitChar_isDigit (n : ℕ) (h : n ≤ 9) : (digitChar n).isDigit = true := by
  interval_cases n <;> decide

theorem digitChar_toNat (n : ℕ) (h : n ≤ 9) : (digitChar n).toNat = 48 + n := by
  interval_cases n <;> decide

theorem dropWhile_ws_eq_self (cs : List Char) (h : ∀ c ∈ cs, c.isWhitespace = false) :
    cs.dropWhile Char.isWhitespace = cs := by
  cases cs with
  | nil => rfl
  | cons c t => simp [List.dropWhile_cons, h c (by simp)]

theorem jsTrim_eq_self (cs : List Char) (h : ∀ c ∈ cs, c.isWhitespace = false) :
    jsTrim cs = cs := by
  unfold jsTrim
  rw [dropWhile_ws_eq_self cs h,
    dropWhile_ws_eq_self cs.reverse (fun c hc => h c (List.mem_reverse.mp hc)),
    List.reverse_reverse]

theorem jsNumberL_two_digits (a b : ℕ) (ha : a ≤ 9) (hb : b ≤ 9) :
    jsNumberL [digitChar a, digitChar b] = some ((10 * a + b : ℕ) : ℚ) := by
  have htrim : jsTrim [digitChar a, digitChar b] = [digitChar a, digitChar b] := by
    apply jsTrim_eq_self
    intro c hc
    simp only [List.mem_cons, List.not_mem_nil, or_false] at hc
    rcases hc with rfl | rfl
    · exact digitChar_not_ws a
    · exact digitChar_not_ws b
  unfold jsNumberL
  simp only [htrim]
  rw [if_neg (by simp), if_neg (by simpa using digitChar_ne_minus a),
    if_neg (by simpa using digitChar_ne_plus a)]
  unfold parseUnsignedDecimal
  simp only [List.takeWhile_cons, digitChar_isDigit a ha, digitChar_isDigit b hb,
    List.takeWhile_nil, List.dropWhile_cons, List.dropWhile_nil, if_true]
  simp only [digitsVal, List.foldl, digitChar_toNat a ha, digitChar_toNat b hb]
  have hv : (0 * 10 + (48 + a - 48)) * 10 + (48 + b - 48) = 10 * a + b := by omega
  rw [hv, if_neg (by simp)]

theorem timeToMinutes_mkTime (h m : ℕ) (hh : h < 24) (hm : m < 60) :
    timeToMinutes (mkTime h m) = some ((h * 60 + m : ℕ) : ℚ) := by
  have hsplit : splitOnChar ':' (mkTime h m).toList =
      [[digitChar (h / 10), digitChar (h % 10)], [digitChar (m / 10), digitChar (m % 10)]] := by
    simp [mkTime, splitOnChar, digitChar_ne_colon]
  have hhd : jsNumberL [digitChar (h / 10), digitChar (h % 10)] = some ((h : ℕ) : ℚ) := by
    rw [jsNumberL_two_digits _ _ (by omega) (by omega)]
    congr 2
    omega
  have hmd : jsNumberL [digitChar (m / 10), digitChar (m % 10)] = some ((m : ℕ) : ℚ) := by
    rw [jsNumberL_two_digits _ _ (by omega) (by omega)]
    congr 2
    omega
  have hne : ¬ (mkTime h m = "" ∨ ¬ (mkTime h m).toList.contains ':') := by
    push_neg
    refine ⟨?_, by simp [mkTime]⟩
    intro hcon
    have hlist : (mkTime h m).toList = ("" : String).toList := by rw [hcon]
    simp [mkTime, String.toList] at hlist
  unfold timeToMinutes
  rw [if_neg hne, hsplit]
  simp only [List.map_cons, List.map_nil, hhd, hmd, List.getD_cons_zero, List.getD_cons_succ]
  rw [if_neg, jsMul_some, jsAdd_some]
  · congr 1
    push_cast
    ring
  · rintro ⟨h24, -⟩
    rw [Option.some.injEq] at h24
    have hcast : h = 24 := by exact_mod_cast h24
    omega

theorem strSign_self (a : String) : strSign a a = 0 := by
  simp [strSign, lt_irrefl]

theorem strSign_antisymm (a b : String) : strSign a b = - strSign b a := by
  rcases lt_trichotomy a b with h | rfl | h
  · simp [strSign, h, asymm h]
  · simp [strSign, lt_irrefl]
  · simp [strSign, h, asymm h]

theorem strSign_nonpos_iff (a b : String) : strSign a b ≤ 0 ↔ a ≤ b := by
  rcases lt_trichotomy a b with h | rfl | h
  · simp [strSign, h, asymm h, le_of_lt h]
  · simp [strSign, lt_irrefl]
  · simp [strSign, h, asymm h, not_le.mpr h]

theorem strSign_neg_iff (a b : String) : strSign a b < 0 ↔ a < b := by
  rcases lt_trichotomy a b with h | rfl | h
  · simp [strSign, h, asymm h]
  · simp [strSign, lt_irrefl]
  · simp [strSign, h, asymm h, asymm h]

theorem eventCompare_eval (a b : Event) (sa sb : ℚ)
    (ha : startN a = some sa) (hb : startN b = some sb) :
    eventCompare a b = if sa - sb ≠ 0 then sa - sb else strSign a.id b.id := by
  unfold eventCompare
  rw [ha, hb]
  rfl

theorem eventCompare_self (a : Event) : eventCompare a a = 0 := by
  rcases h : startN a with _ | s
  · unfold eventCompare
    rw [h]
    rfl
  · rw [eventCompare_eval a a s s h h]
    simp [strSign_self, sub_self]

theorem eventCompare_antisymm (a b : Event) : eventCompare a b = - eventCompare b a := by
  rcases ha : startN a with _ | sa <;> rcases hb : startN b with _ | sb
  · unfold eventCompare
    rw [ha, hb, jsSub_none_left]
    norm_num
  · unfold eventCompare
    rw [ha, hb, jsSub_none_left, jsSub_none_right]
    norm_num
  · unfold eventCompare
    rw [ha, hb, jsSub_none_left, jsSub_none_right]
    norm_num
  · rw [eventCompare_eval a b sa sb ha hb, eventCompare_eval b a sb sa hb ha]
    by_cases hd : sa - sb = 0
    · have hd2 : sb - sa = 0 := by linarith
      rw [if_neg (by simpa using hd), if_neg (by simpa using hd2)]
      rw [strSign_antisymm]
    · have hd2 : sb - sa ≠ 0 := fun hc => hd (by linarith)
      rw [if_pos hd, if_pos hd2]
      ring

theorem evLe_total (a b : Event) : evLe a b ∨ evLe b a := by
  unfold evLe
  rw [eventCompare_antisymm a b]
  rcases le_total (eventCompare b a) 0 with h | h
  · right
    exact h
  · left
    linarith

theorem evLe_iff (a b : Event) (sa sb : ℚ)
    (ha : startN a = some sa) (hb : startN b = some sb) :
    evLe a b ↔ (sa < sb ∨ (sa = sb ∧ a.id ≤ b.id)) := by
  unfold evLe
  rw [eventCompare_eval a b sa sb ha hb]
  by_cases hd : sa - sb = 0
  · have heq : sa = sb := by linarith
    rw [if_neg (by simpa using hd)]
    rw [strSign_nonpos_iff]
    constructor
    · intro hle
      exact Or.inr ⟨heq, hle⟩
    · rintro (hlt | ⟨-, hle⟩)
      · exact absurd heq (ne_of_lt hlt)
      · exact hle
  · rw [if_pos hd]
    constructor
    · intro hle
      exact Or.inl (lt_of_le_of_ne (by linarith) (fun hc => hd (by rw [hc]; ring)))
    · rintro (hlt | ⟨heq, -⟩)
      · linarith
      · exact absurd (by rw [heq, sub_self] : sa - sb = 0) hd

theorem eventCompare_neg_iff (a b : Event) (sa sb : ℚ)
    (ha : startN a = some sa) (hb : startN b = some sb) :
    eventCompare a b < 0 ↔ (sa < sb ∨ (sa = sb ∧ a.id < b.id)) := by
  rw [eventCompare_eval a b sa sb ha hb]
  by_cases hd : sa - sb = 0
  · have heq : sa = sb := by linarith
    rw [if_neg (by simpa using hd)]
    rw [strSign_neg_iff]
    constructor
    · intro hlt
      exact Or.inr ⟨heq, hlt⟩
    · rintro (hlt | ⟨-, hlt⟩)
      · exact absurd heq (ne_of_lt hlt)
      · exact hlt
  · rw [if_pos hd]
    constructor
    · intro hlt
      exact Or.inl (by linarith)
    · rintro (hlt | ⟨heq, -⟩)
      · linarith
      · exact absurd (by rw [heq, sub_self] : sa - sb = 0) hd

theorem evLe_trans_numeric {a b c : Event} (sa sb sc : ℚ)
    (ha : startN a = some sa) (hb : startN b = some sb) (hc : startN c = some sc)
    (hab : evLe a b) (hbc : evLe b c) : evLe a c := by
  rw [evLe_iff a b sa sb ha hb] at hab
  rw [evLe_iff b c sb sc hb hc] at hbc
  rw [evLe_iff a c sa sc ha hc]
  rcases hab with h1 | ⟨h1, h1id⟩ <;> rcases hbc with h2 | ⟨h2, h2id⟩
  · exact Or.inl (by linarith)
  · exact Or.inl (by linarith)
  · exact Or.inl (by linarith)
  · exact Or.inr ⟨by linarith, le_trans h1id h2id⟩

theorem pairwise_orderedInsert (a : Event) (l : List Event)
    (ha : (startN a).isSome) (hl : ∀ x ∈ l, (startN x).isSome)
    (hp : l.Pairwise evLe) : (List.orderedInsert evLe a l).Pairwise evLe := by
  induction l with
  | nil => simp [List.orderedInsert]
  | cons b t ih =>
    rw [List.orderedInsert]
    by_cases hab : evLe a b
    · rw [if_pos hab]
      rw [List.pairwise_cons]
      refine ⟨?_, hp⟩
      intro y hy
      rcases List.mem_cons.mp hy with rfl | hyt
      · exact hab
      · obtain ⟨sa, hsa⟩ := Option.isSome_iff_exists.mp ha
        obtain ⟨sb, hsb⟩ := Option.isSome_iff_exists.mp (hl b (by simp))
        obtain ⟨sy, hsy⟩ := Option.isSome_iff_exists.mp (hl y (List.mem_cons_of_mem _ hyt))
        exact evLe_trans_numeric sa sb sy hsa hsb hsy hab ((List.pairwise_cons.mp hp).1 y hyt)
    · rw [if_neg hab]
      have hba : evLe b a := (evLe_total a b).resolve_left hab
      rw [List.pairwise_cons]
      constructor
      · intro y hy
        rcases (List.mem_orderedInsert evLe).mp hy with rfl | hyt
        · exact hba
        · exact (List.pairwise_cons.mp hp).1 y hyt
      · exact ih (fun x hx => hl x (List.mem_cons_of_mem _ hx)) (List.pairwise_cons.mp hp).2

theorem sorted_sortEvents (l : List Event) (hl : ∀ x ∈ l, (startN x).isSome) :
    (sortEvents l).Pairwise evLe := by
  unfold sortEvents
  induction l with
  | nil => simp
  | cons a t ih =>
    rw [List.insertionSort]
    apply pairwise_orderedInsert a _ (hl a (by simp))
    · intro x hx
      exact hl x (List.mem_cons_of_mem _ ((List.mem_insertionSort evLe).mp hx))
    · exact ih (fun x hx => hl x (List.mem_cons_of_mem _ hx))

theorem sortEvents_perm (l : List Event) : (sortEvents l).Perm l :=
  List.perm_insertionSort evLe l

theorem findIdx?_shift (p : Event → Bool) :
    ∀ (l : List Event) (s k : ℕ), List.findIdx? p l s = some k →
      s ≤ k ∧ ∃ x, l.get? (k - s) = some x ∧ p x = true := by
  intro l
  induction l with
  | nil => intro s k h; simp at h
  | cons a t ih =>
    intro s k h
    rw [List.findIdx?_cons] at h
    by_cases hpa : p a = true
    · rw [if_pos hpa] at h
      obtain rfl : s = k := by simpa using h
      exact ⟨le_refl s, a, by simp, hpa⟩
    · rw [if_neg hpa] at h
      obtain ⟨hle, x, hx, hpx⟩ := ih (s + 1) k h
      refine ⟨by omega, x, ?_, hpx⟩
      have hk : k - s = (k - (s + 1)) + 1 := by omega
      rw [hk]
      simpa using hx

theorem findIdx?_bound (p : Event → Bool) (l : List Event) (k : ℕ)
    (h : List.findIdx? p l = some k) : k < l.length ∧ ∃ x, l.get? k = some x ∧ p x = true := by
  obtain ⟨-, x, hx, hpx⟩ := findIdx?_shift p l 0 k h
  rw [Nat.sub_zero] at hx
  exact ⟨(List.get?_eq_some.mp hx).1, x, hx, hpx⟩

theorem findIdx?_isSome_of_mem (p : Event → Bool) (l : List Event) (x : Event)
    (hx : x ∈ l) (hpx : p x = true) : (List.findIdx? p l).isSome := by
  rcases h : List.findIdx? p l with _ | k
  · rw [List.findIdx?_eq_none_iff] at h
    rw [h x hx] at hpx
    exact absurd hpx (by simp)
  · rfl

theorem findIdxId_shift (e : Event) :
    ∀ (l : List Event) (s : ℕ), (l.map Event.id).Nodup → e ∈ l →
      ∃ k, List.findIdx? (fun x => x.id = e.id) l s = some (s + k) ∧ l.get? k = some e := by
  intro l
  induction l with
  | nil => intro s _ he; simp at he
  | cons a t ih =>
    intro s hn he
    rw [List.findIdx?_cons]
    have hn2 : (a.id :: t.map Event.id).Nodup := by
      rw [List.map_cons] at hn
      exact hn
    have hhead : a.id ∉ t.map Event.id := (List.nodup_cons.mp hn2).1
    have htail : (t.map Event.id).Nodup := (List.nodup_cons.mp hn2).2
    by_cases hid : a.id = e.id
    · have hae : a = e := by
        rcases List.mem_cons.mp he with rfl | het
        · rfl
        · exfalso
          have hmem : e.id ∈ t.map Event.id := List.mem_map_of_mem Event.id het
          rw [hid] at hhead
          exact hhead hmem
      refine ⟨0, ?_, by simp [hae]⟩
      rw [if_pos (by simp [hid])]
      simp
    · have het : e ∈ t := by
        rcases List.mem_cons.mp he with rfl | het
        · exact absurd rfl hid
        · exact het
      obtain ⟨k, hk, hget⟩ := ih (s + 1) htail het
      refine ⟨k + 1, ?_, by simpa using hget⟩
      rw [if_neg (by simp [hid]), hk]
      congr 1
      omega

theorem findIdxId_of_nodup (l : List Event) (e : Event)
    (hn : (l.map Event.id).Nodup) (he : e ∈ l) :
    ∃ k, List.findIdx? (fun x => x.id = e.id) l = some k ∧ l.get? k = some e := by
  obtain ⟨k, hk, hget⟩ := findIdxId_shift e l 0 hn he
  exact ⟨k, by simpa using hk, hget⟩

theorem get?_index_lt (S : List Event) (hs : S.Pairwise evLe) (i j : ℕ) (e o : Event)
    (hi : S.get? i = some e) (hj : S.get? j = some o)
    (h : eventCompare e o < 0) : i < j := by
  by_contra hij
  push_neg at hij
  rcases Nat.lt_or_ge j i with hji | hji
  · obtain ⟨hilen, hie⟩ := List.get?_eq_some.mp hi
    obtain ⟨hjlen, hjo⟩ := List.get?_eq_some.mp hj
    have hpair := List.pairwise_iff_get.mp hs ⟨j, hjlen⟩ ⟨i, hilen⟩ hji
    rw [hie, hjo] at hpair
    have : eventCompare e o = - eventCompare o e := eventCompare_antisymm e o
    unfold evLe at hpair
    linarith
  · have : i = j := by omega
    subst this
    rw [hi] at hj
    obtain rfl : e = o := by simpa using hj
    rw [eventCompare_self] at h
    exact absurd h (by norm_num)

theorem mem_concurrentCluster (dayEvents : List Event) (e o : Event) :
    o ∈ concurrentCluster dayEvents e ↔ o ∈ dayEvents ∧ overlapsB e o = true := by
  unfold concurrentCluster
  rw [List.mem_filter]

theorem overlapsB_iff_numeric (e o : Event) (se te s2 t2 : ℚ)
    (hse : startN e = some se) (hte : endN e = some te)
    (hso : startN o = some s2) (hto : endN o = some t2) :
    overlapsB e o = true ↔ max se s2 < min te t2 := by
  unfold overlapsB
  rw [hse, hte, hso, hto, jsMax_some, jsMin_some, jsLt_some]
  exact decide_eq_true_iff

theorem overlapsB_self (e : Event) (se te : ℚ)
    (hse : startN e = some se) (hte : endN e = some te) (hlt : se < te) :
    overlapsB e e = true := by
  rw [overlapsB_iff_numeric e e se te se te hse hte hse hte]
  simpa using hlt

theorem overlapsB_degenerate (e o : Event) (se te : ℚ)
    (hse : startN e = some se) (hte : endN e = some te) (hle : te ≤ se) :
    overlapsB e o = false := by
  unfold overlapsB
  rw [hse, hte]
  rcases hso : startN o with _ | s2
  · rw [show jsMax (some se) none = none from rfl, jsLt_none_left]
  · rcases hto : endN o with _ | t2
    · rw [show jsMin (some te) none = none from rfl, jsLt_none_right]
    · rw [jsMax_some, jsMin_some, jsLt_some]
      simp only [decide_eq_false_iff_not, not_lt]
      calc min te t2 ≤ te := min_le_left te t2
        _ ≤ se := hle
        _ ≤ max se s2 := le_max_left se s2

theorem concurrentCluster_degenerate (dayEvents : List Event) (e : Event) (se te : ℚ)
    (hse : startN e = some se) (hte : endN e = some te) (hle : te ≤ se) :
    concurrentCluster dayEvents e = [] := by
  unfold concurrentCluster
  rw [List.filter_eq_nil_iff]
  intro o _
  rw [overlapsB_degenerate e o se te hse hte hle]
  simp

theorem cluster_ids_nodup (dayEvents : List Event) (e : Event)
    (hid : (dayEvents.map Event.id).Nodup) :
    ((concurrentCluster dayEvents e).map Event.id).Nodup :=
  hid.sublist ((List.filter_sublist dayEvents).map Event.id)

theorem sorted_cluster_ids_nodup (dayEvents : List Event) (e : Event)
    (hid : (dayEvents.map Event.id).Nodup) :
    ((concurrentSorted dayEvents e).map Event.id).Nodup :=
  (((sortEvents_perm (concurrentCluster dayEvents e)).map Event.id).nodup_iff).mpr
    (cluster_ids_nodup dayEvents e hid)

theorem mem_sorted_cluster (dayEvents : List Event) (e x : Event) :
    x ∈ concurrentSorted dayEvents e ↔ x ∈ concurrentCluster dayEvents e := by
  unfold concurrentSorted sortEvents
  exact List.mem_insertionSort evLe

theorem sorted_cluster_numeric (dayEvents : List Event) (e : Event)
    (hnum : NumericTimes dayEvents) :
    ∀ x ∈ concurrentSorted dayEvents e, (startN x).isSome := by
  intro x hx
  have hx2 := (mem_sorted_cluster dayEvents e x).mp hx
  have hx3 := (mem_concurrentCluster dayEvents e x).mp hx2
  exact (hnum x hx3.1).1

theorem sorted_cluster_pairwise (dayEvents : List Event) (e : Event)
    (hnum : NumericTimes dayEvents) :
    (concurrentSorted dayEvents e).Pairwise evLe := by
  unfold concurrentSorted
  apply sorted_sortEvents
  intro x hx
  have hx3 := (mem_concurrentCluster dayEvents e x).mp hx
  exact (hnum x hx3.1).1

theorem sorted_cluster_length (dayEvents : List Event) (e : Event) :
    (concurrentSorted dayEvents e).length = (concurrentCluster dayEvents e).length :=
  (sortEvents_perm (concurrentCluster dayEvents e)).length_eq

theorem widthFraction_eq (dayEvents : List Event) (e : Event) :
    widthFraction dayEvents e = 1 / (numConcurrent dayEvents e : ℚ) := by
  unfold widthFraction eventWidth
  rw [div_div, mul_comm, ← div_div]
  norm_num

theorem leftOffsetFraction_eq (dayEvents : List Event) (e : Event) :
    leftOffsetFraction dayEvents e =
      (myIndexZ dayEvents e : ℚ) / (numConcurrent dayEvents e : ℚ) := by
  unfold leftOffsetFraction eventLeft
  rw [mul_div_assoc]
  have hw : eventWidth dayEvents e / 100 = 1 / (numConcurrent dayEvents e : ℚ) :=
    widthFraction_eq dayEvents e
  rw [hw, mul_one_div]

/-- Layout characterization for an event that belongs to its own cluster:
its slot index is its position in the sorted cluster, the cluster size is
used as the divisor, and width/offset are the spec fractions. -/
theorem layout_char (dayEvents : List Event) (e : Event)
    (hid : (dayEvents.map Event.id).Nodup)
    (he : e ∈ dayEvents) (se te : ℚ)
    (hse : startN e = some se) (hte : endN e = some te) (hlt : se < te) :
    ∃ k : ℕ, (concurrentSorted dayEvents e).get? k = some e ∧
      myIndexZ dayEvents e = (k : ℤ) ∧
      numConcurrent dayEvents e = (concurrentCluster dayEvents e).length ∧
      widthFraction dayEvents e = 1 / ((concurrentCluster dayEvents e).length : ℚ) ∧
      leftOffsetFraction dayEvents e = (k : ℚ) / ((concurrentCluster dayEvents e).length : ℚ) := by
  have heC : e ∈ concurrentCluster dayEvents e :=
    (mem_concurrentCluster dayEvents e e).mpr ⟨he, overlapsB_self e se te hse hte hlt⟩
  have heS : e ∈ concurrentSorted dayEvents e := (mem_sorted_cluster dayEvents e e).mpr heC
  obtain ⟨k, hfind, hget⟩ := findIdxId_of_nodup (concurrentSorted dayEvents e) e
    (sorted_cluster_ids_nodup dayEvents e hid) heS
  have hlen : (concurrentCluster dayEvents e).length ≠ 0 := by
    intro hc
    rw [List.length_eq_zero] at hc
    rw [hc] at heC
    exact absurd heC (List.not_mem_nil e)
  have hnum1 : numConcurrent dayEvents e = (concurrentCluster dayEvents e).length := by
    unfold numConcurrent
    rw [sorted_cluster_length, if_neg hlen]
  have hidx : myIndexZ dayEvents e = (k : ℤ) := by
    unfold myIndexZ jsFindIndex
    rw [hfind]
  refine ⟨k, hget, hidx, hnum1, ?_, ?_⟩
  · rw [widthFraction_eq, hnum1]
  · rw [leftOffsetFraction_eq, hnum1, hidx]
    norm_num

/-- C3: for every same-day event list and every hour height, the layout
engine assigns each event exactly the reference descriptor: the concurrency
cluster is the set of same-day events overlapping it in the open-interval
sense, the cluster is sorted by start minutes with id as tie-break, the
event at sorted position k in a cluster of size n gets widthFraction 1/n
and leftOffsetFraction k/n, and vertically top = startMinutes/60 * H and
height = max 5 (endMinutes - startMinutes) / 60 * H.  (Stated for an event
that belongs to its own cluster, i.e. with a nonempty time range, and for a
day list with pairwise distinct ids and numeric times, the situation in
which the reference descriptor is defined.) -/
theorem claim_C3 (dayEvents : List Event) (H : ℚ) (e : Event)
    (hid : (dayEvents.map Event.id).Nodup)
    (hnum : NumericTimes dayEvents)
    (he : e ∈ dayEvents)
    (se te : ℚ) (hse : startN e = some se) (hte : endN e = some te) (hlt : se < te) :
    (∀ o s2 t2, o ∈ dayEvents → startN o = some s2 → endN o = some t2 →
        (o ∈ concurrentCluster dayEvents e ↔ max se s2 < min te t2)) ∧
    (concurrentSorted dayEvents e).Perm (concurrentCluster dayEvents e) ∧
    (concurrentSorted dayEvents e).Pairwise specLexLe ∧
    (∃ k : ℕ, (concurrentSorted dayEvents e).get? k = some e ∧
      widthFraction dayEvents e = 1 / ((concurrentCluster dayEvents e).length : ℚ) ∧
      leftOffsetFraction dayEvents e = (k : ℚ) / ((concurrentCluster dayEvents e).length : ℚ)) ∧
    eventTop H e = some (se / 60 * H) ∧
    eventHeight H e = some (max 5 (te - se) / 60 * H) := by
  refine ⟨?_, sortEvents_perm _, ?_, ?_, ?_, ?_⟩
  · intro o s2 t2 hoDay hs2 ht2
    rw [mem_concurrentCluster, overlapsB_iff_numeric e o se te s2 t2 hse hte hs2 ht2]
    constructor
    · exact fun h => h.2
    · exact fun h => ⟨hoDay, h⟩
  · apply (sorted_cluster_pairwise dayEvents e hnum).imp_of_mem
    intro a b ha hb hab
    obtain ⟨sa, hsa⟩ := Option.isSome_iff_exists.mp (sorted_cluster_numeric dayEvents e hnum a ha)
    obtain ⟨sb, hsb⟩ := Option.isSome_iff_exists.mp (sorted_cluster_numeric dayEvents e hnum b hb)
    exact ⟨sa, sb, hsa, hsb, (evLe_iff a b sa sb hsa hsb).mp hab⟩
  · obtain ⟨k, hget, -, -, hw, hl⟩ := layout_char dayEvents e hid he se te hse hte hlt
    exact ⟨k, hget, hw, hl⟩
  · unfold eventTop
    rw [hse, jsDiv_some, jsMul_some]
  · unfold eventHeight durationInMinutes
    rw [hse, hte, jsSub_some, jsMax_some, jsDiv_some, jsMul_some]

/-- C10: an event with a positive time range is a member of its own cluster
and its left offset fraction lies in [0, 1); an event with
endMinutes <= startMinutes has an empty cluster (not even containing
itself), sentinel index -1, a negative left offset fraction of -1/n, and a
height still clamped to the 5-minute minimum. -/
theorem claim_C10 (dayEvents : List Event) (H : ℚ) (e : Event) (se te : ℚ)
    (hse : startN e = some se) (hte : endN e = some te) :
    (se < te → e ∈ dayEvents →
      e ∈ concurrentCluster dayEvents e ∧
      1 ≤ numConcurrent dayEvents e ∧
      (∃ k : ℕ, k < (concurrentCluster dayEvents e).length ∧
        leftOffsetFraction dayEvents e =
          (k : ℚ) / ((concurrentCluster dayEvents e).length : ℚ)) ∧
      0 ≤ leftOffsetFraction dayEvents e ∧ leftOffsetFraction dayEvents e < 1) ∧
    (te ≤ se →
      concurrentCluster dayEvents e = [] ∧
      myIndexZ dayEvents e = -1 ∧
      numConcurrent dayEvents e = 1 ∧
      leftOffsetFraction dayEvents e = -(1 / (numConcurrent dayEvents e : ℚ)) ∧
      leftOffsetFraction dayEvents e < 0 ∧
      eventHeight H e = some (5 / 60 * H)) := by
  constructor
  · intro hlt he
    have heC : e ∈ concurrentCluster dayEvents e :=
      (mem_concurrentCluster dayEvents e e).mpr ⟨he, overlapsB_self e se te hse hte hlt⟩
    have heS : e ∈ concurrentSorted dayEvents e := (mem_sorted_cluster dayEvents e e).mpr heC
    have hlenpos : 0 < (concurrentCluster dayEvents e).length :=
      List.length_pos.mpr (List.ne_nil_of_mem heC)
    have hnC : numConcurrent dayEvents e = (concurrentCluster dayEvents e).length := by
      unfold numConcurrent
      rw [sorted_cluster_length, if_neg (by omega)]
    have hpe : (fun x => decide (x.id = e.id)) e = true := by simp
    have hisSome := findIdx?_isSome_of_mem (fun x => decide (x.id = e.id))
      (concurrentSorted dayEvents e) e heS hpe
    obtain ⟨k, hk⟩ := Option.isSome_iff_exists.mp hisSome
    obtain ⟨hklt, -⟩ := findIdx?_bound _ _ _ hk
    rw [sorted_cluster_length] at hklt
    have hidx : myIndexZ dayEvents e = (k : ℤ) := by
      unfold myIndexZ jsFindIndex
      rw [hk]
    have hl : leftOffsetFraction dayEvents e =
        (k : ℚ) / ((concurrentCluster dayEvents e).length : ℚ) := by
      rw [leftOffsetFraction_eq, hidx, hnC]
      norm_num
    have hq0 : (0 : ℚ) < ((concurrentCluster dayEvents e).length : ℚ) := by
      exact_mod_cast hlenpos
    refine ⟨heC, by omega, ⟨k, hklt, hl⟩, ?_, ?_⟩
    · rw [hl]
      positivity
    · rw [hl, div_lt_one hq0]
      exact_mod_cast hklt
  · intro hle
    have hC : concurrentCluster dayEvents e = [] :=
      concurrentCluster_degenerate dayEvents e se te hse hte hle
    have hS : concurrentSorted dayEvents e = [] := by
      unfold concurrentSorted
      rw [hC]
      rfl
    have hidx : myIndexZ dayEvents e = -1 := by
      unfold myIndexZ jsFindIndex
      rw [hS]
      rfl
    have hnC : numConcurrent dayEvents e = 1 := by
      unfold numConcurrent
      rw [hS]
      rfl
    have hl : leftOffsetFraction dayEvents e = -(1 / (numConcurrent dayEvents e : ℚ)) := by
      rw [leftOffsetFraction_eq, hidx, hnC]
      norm_num
    refine ⟨hC, hidx, hnC, hl, ?_, ?_⟩
    · rw [hl, hnC]
      norm_num
    · unfold eventHeight durationInMinutes
      rw [hse, hte, jsSub_some, jsMax_some, jsDiv_some, jsMul_some]
      rw [max_eq_left (by linarith)]

/-- C1 (amended): when two events of a same-day list share one and the same
concurrency cluster, the earlier one (in the (startMinutes, id) tie-break
order) gets a slot that ends no later than the later one begins. -/
theorem claim_C1 (dayEvents : List Event) (e o : Event)
    (hid : (dayEvents.map Event.id).Nodup) (hnum : NumericTimes dayEvents)
    (he : e ∈ dayEvents)
    (ho : o ∈ concurrentCluster dayEvents e)
    (hsame : concurrentCluster dayEvents e = concurrentCluster dayEvents o)
    (hbefore : specBefore e o) :
    leftOffsetFraction dayEvents e + widthFraction dayEvents e ≤
      leftOffsetFraction dayEvents o := by
  obtain ⟨se, s2, hse, hs2, hbef⟩ := hbefore
  have hoDay : o ∈ dayEvents := ((mem_concurrentCluster dayEvents e o).mp ho).1
  have hov : overlapsB e o = true := ((mem_concurrentCluster dayEvents e o).mp ho).2
  obtain ⟨te, hte⟩ := Option.isSome_iff_exists.mp (hnum e he).2
  obtain ⟨t2, ht2⟩ := Option.isSome_iff_exists.mp (hnum o hoDay).2
  have hov2 : max se s2 < min te t2 :=
    (overlapsB_iff_numeric e o se te s2 t2 hse hte hs2 ht2).mp hov
  have hlt_e : se < te :=
    lt_of_le_of_lt (le_max_left se s2) (lt_of_lt_of_le hov2 (min_le_left te t2))
  have hlt_o : s2 < t2 :=
    lt_of_le_of_lt (le_max_right se s2) (lt_of_lt_of_le hov2 (min_le_right te t2))
  obtain ⟨ke, hgetE, -, -, hwE, hlE⟩ := layout_char dayEvents e hid he se te hse hte hlt_e
  obtain ⟨ko, hgetO, -, -, -, hlO⟩ := layout_char dayEvents o hid hoDay s2 t2 hs2 ht2 hlt_o
  have hSeq : concurrentSorted dayEvents o = concurrentSorted dayEvents e := by
    unfold concurrentSorted
    rw [hsame]
  have hsorted : (concurrentSorted dayEvents e).Pairwise evLe :=
    sorted_cluster_pairwise dayEvents e hnum
  have hcmp : eventCompare e o < 0 := by
    rw [eventCompare_neg_iff e o se s2 hse hs2]
    exact hbef
  have hgetO2 : (concurrentSorted dayEvents e).get? ko = some o := by
    rw [← hSeq]
    exact hgetO
  have hkk : ke < ko := get?_index_lt _ hsorted ke ko e o hgetE hgetO2 hcmp
  have hlen : (concurrentCluster dayEvents o).length = (concurrentCluster dayEvents e).length := by
    rw [hsame]
  rw [hwE, hlE, hlO, hlen]
  have heC : e ∈ concurrentCluster dayEvents e :=
    (mem_concurrentCluster dayEvents e e).mpr ⟨he, overlapsB_self e se te hse hte hlt_e⟩
  have hq0 : (0 : ℚ) < ((concurrentCluster dayEvents e).length : ℚ) := by
    exact_mod_cast List.length_pos.mpr (List.ne_nil_of_mem heC)
  rw [div_add_div_same]
  rw [div_le_div_iff_of_pos_right hq0]
  have : ke + 1 ≤ ko := hkk
  exact_mod_cast this

theorem tm_0900 : timeToMinutes "09:00" = some 540 := by
  rw [show ("09:00" : String) = mkTime 9 0 from by decide,
    timeToMinutes_mkTime 9 0 (by norm_num) (by norm_num)]
  norm_num

theorem tm_0930 : timeToMinutes "09:30" = some 570 := by
  rw [show ("09:30" : String) = mkTime 9 30 from by decide,
    timeToMinutes_mkTime 9 30 (by norm_num) (by norm_num)]
  norm_num

theorem tm_1000 : timeToMinutes "10:00" = some 600 := by
  rw [show ("10:00" : String) = mkTime 10 0 from by decide,
    timeToMinutes_mkTime 10 0 (by norm_num) (by norm_num)]
  norm_num

theorem tm_1030 : timeToMinutes "10:30" = some 630 := by
  rw [show ("10:30" : String) = mkTime 10 30 from by decide,
    timeToMinutes_mkTime 10 30 (by norm_num) (by norm_num)]
  norm_num

theorem tm_1100 : timeToMinutes "11:00" = some 660 := by
  rw [show ("11:00" : String) = mkTime 11 0 from by decide,
    timeToMinutes_mkTime 11 0 (by norm_num) (by norm_num)]
  norm_num

theorem tm_1200 : timeToMinutes "12:00" = some 720 := by
  rw [show ("12:00" : String) = mkTime 12 0 from by decide,
    timeToMinutes_mkTime 12 0 (by norm_num) (by norm_num)]
  norm_num

theorem s_cA : startN cA = some 540 := tm_0900

theorem e_cA : endN cA = some 600 := tm_1000

theorem s_cB : startN cB = some 570 := tm_0930

theorem e_cB : endN cB = some 630 := tm_1030

theorem s_cC : startN cC = some 600 := tm_1000

theorem e_cC : endN cC = some 660 := tm_1100

theorem s_cD : startN cD = some 660 := tm_1100

theorem e_cD : endN cD = some 720 := tm_1200

theorem s_cZ : startN cZ = some 600 := tm_1000

theorem e_cZ : endN cZ = some 540 := tm_0900

theorem ov_AA : overlapsB cA cA = true :=
  (overlapsB_iff_numeric cA cA 540 600 540 600 s_cA e_cA s_cA e_cA).mpr (by norm_num)

theorem ov_AB : overlapsB cA cB = true :=
  (overlapsB_iff_numeric cA cB 540 600 570 630 s_cA e_cA s_cB e_cB).mpr (by norm_num)

theorem ov_AC : overlapsB cA cC = false := by
  rw [Bool.eq_false_iff, Ne, overlapsB_iff_numeric cA cC 540 600 600 660 s_cA e_cA s_cC e_cC]
  norm_num

theorem ov_AD : overlapsB cA cD = false := by
  rw [Bool.eq_false_iff, Ne, overlapsB_iff_numeric cA cD 540 600 660 720 s_cA e_cA s_cD e_cD]
  norm_num

theorem ov_BA : overlapsB cB cA = true :=
  (overlapsB_iff_numeric cB cA 570 630 540 600 s_cB e_cB s_cA e_cA).mpr (by norm_num)

theorem ov_BB : overlapsB cB cB = true :=
  (overlapsB_iff_numeric cB cB 570 630 570 630 s_cB e_cB s_cB e_cB).mpr (by norm_num)

theorem ov_BC : overlapsB cB cC = true :=
  (overlapsB_iff_numeric cB cC 570 630 600 660 s_cB e_cB s_cC e_cC).mpr (by norm_num)

theorem ov_BD : overlapsB cB cD = false := by
  rw [Bool.eq_false_iff, Ne, overlapsB_iff_numeric cB cD 570 630 660 720 s_cB e_cB s_cD e_cD]
  norm_num

theorem le_AB : evLe cA cB :=
  (evLe_iff cA cB 540 570 s_cA s_cB).mpr (Or.inl (by norm_num))

theorem le_BC : evLe cB cC :=
  (evLe_iff cB cC 570 600 s_cB s_cC).mpr (Or.inl (by norm_num))

theorem cl_A : concurrentCluster cDay cA = [cA, cB] := by
  simp [concurrentCluster, cDay, ov_AA, ov_AB, ov_AC]

theorem cl_B : concurrentCluster cDay cB = [cA, cB, cC] := by
  simp [concurrentCluster, cDay, ov_BA, ov_BB, ov_BC]

theorem sort_A : concurrentSorted cDay cA = [cA, cB] := by
  unfold concurrentSorted sortEvents
  rw [cl_A]
  simp only [List.insertionSort, List.orderedInsert]
  rw [if_pos le_AB]

theorem sort_B : concurrentSorted cDay cB = [cA, cB, cC] := by
  unfold concurrentSorted sortEvents
  rw [cl_B]
  simp only [List.insertionSort, List.orderedInsert]
  rw [if_pos le_BC]
  simp only [List.orderedInsert]
  rw [if_pos le_AB]

theorem n_A : numConcurrent cDay cA = 2 := by
  unfold numConcurrent
  rw [sort_A]
  norm_num

theorem n_B : numConcurrent cDay cB = 3 := by
  unfold numConcurrent
  rw [sort_B]
  norm_num

theorem idx_A : myIndexZ cDay cA = 0 := by
  unfold myIndexZ jsFindIndex
  rw [sort_A]
  rw [List.findIdx?_cons, if_pos (by simp)]
  rfl

theorem idx_B : myIndexZ cDay cB = 1 := by
  unfold myIndexZ jsFindIndex
  rw [sort_B]
  rw [List.findIdx?_cons, if_neg (by simp [cA, cB]), List.findIdx?_cons, if_pos (by simp)]
  rfl

theorem w_A : widthFraction cDay cA = 1 / 2 := by
  rw [widthFraction_eq, n_A]
  norm_num

theorem l_A : leftOffsetFraction cDay cA = 0 := by
  rw [leftOffsetFraction_eq, idx_A, n_A]
  norm_num

theorem w_B : widthFraction cDay cB = 1 / 3 := by
  rw [widthFraction_eq, n_B]
  norm_num

theorem l_B : leftOffsetFraction cDay cB = 1 / 3 := by
  rw [leftOffsetFraction_eq, idx_B, n_B]
  norm_num

theorem numeric_pair : NumericTimes [cA, cB] := by
  intro x hx
  rcases List.mem_cons.mp hx with rfl | hx2
  · exact ⟨by rw [s_cA]; rfl, by rw [e_cA]; rfl⟩
  · rcases List.mem_cons.mp hx2 with rfl | hx3
    · exact ⟨by rw [s_cB]; rfl, by rw [e_cB]; rfl⟩
    · exact absurd hx3 (List.not_mem_nil x)

theorem numeric_scenarioA : NumericTimes [cA, cB, cD] := by
  intro x hx
  rcases List.mem_cons.mp hx with rfl | hx2
  · exact ⟨by rw [s_cA]; rfl, by rw [e_cA]; rfl⟩
  · rcases List.mem_cons.mp hx2 with rfl | hx3
    · exact ⟨by rw [s_cB]; rfl, by rw [e_cB]; rfl⟩
    · rcases List.mem_cons.mp hx3 with rfl | hx4
      · exact ⟨by rw [s_cD]; rfl, by rw [e_cD]; rfl⟩
      · exact absurd hx4 (List.not_mem_nil x)

theorem cl2_A : concurrentCluster [cA, cB] cA = [cA, cB] := by
  simp [concurrentCluster, ov_AA, ov_AB]

theorem cl2_B : concurrentCluster [cA, cB] cB = [cA, cB] := by
  simp [concurrentCluster, ov_BA, ov_BB]

theorem cl3_A : concurrentCluster [cA, cB, cD] cA = [cA, cB] := by
  simp [concurrentCluster, ov_AA, ov_AB, ov_AD]

/-- C1 counterexample: in the day [cA, cB, cC] (overlap is not transitive:
cA overlaps cB, cB overlaps cC, cA does not overlap cC), cB is in cA's
cluster, cA precedes cB in the tie-break order, yet cA's slot [0, 1/2)
overlaps cB's slot [1/3, 2/3): the claimed inequality fails and the slots
are not disjoint. -/
theorem claim_C1_cex :
    cB ∈ concurrentCluster cDay cA ∧ specBefore cA cB ∧
    ¬ (leftOffsetFraction cDay cA + widthFraction cDay cA ≤ leftOffsetFraction cDay cB) ∧
    ¬ slotsDisjoint cDay cA cB := by
  refine ⟨?_, ⟨540, 570, s_cA, s_cB, Or.inl (by norm_num)⟩, ?_, ?_⟩
  · rw [cl_A]
    simp
  · rw [l_A, w_A, l_B]
    norm_num
  · unfold slotsDisjoint
    rw [l_A, w_A, l_B, w_B]
    push_neg
    constructor <;> norm_num

/-- C1 witness: on the day [cA, cB] both events have the same cluster, and
the amended claim applies. -/
theorem claim_C1_witness :
    (([cA, cB].map Event.id).Nodup ∧ NumericTimes [cA, cB] ∧
      cB ∈ concurrentCluster [cA, cB] cA ∧
      concurrentCluster [cA, cB] cA = concurrentCluster [cA, cB] cB ∧
      specBefore cA cB) ∧
    leftOffsetFraction [cA, cB] cA + widthFraction [cA, cB] cA ≤
      leftOffsetFraction [cA, cB] cB := by
  have hid : ([cA, cB].map Event.id).Nodup := by
    simp [cA, cB]
  have hsame : concurrentCluster [cA, cB] cA = concurrentCluster [cA, cB] cB := by
    rw [cl2_A, cl2_B]
  have hmem : cB ∈ concurrentCluster [cA, cB] cA := by
    rw [cl2_A]
    simp
  have hbef : specBefore cA cB := ⟨540, 570, s_cA, s_cB, Or.inl (by norm_num)⟩
  exact ⟨⟨hid, numeric_pair, hmem, hsame, hbef⟩,
    claim_C1 [cA, cB] cA cB hid numeric_pair (by simp) hmem hsame hbef⟩

/-- C3 witness: scenario A of the spec, first event of the day
[cA, cB, cD]; its cluster is the pair {cA, cB}, so widthFraction is 1/2,
and the vertical descriptor follows the formula at H = 7. -/
theorem claim_C3_witness :
    (([cA, cB, cD].map Event.id).Nodup ∧ NumericTimes [cA, cB, cD] ∧ (540 : ℚ) < 600) ∧
    widthFraction [cA, cB, cD] cA = 1 / 2 ∧
    eventTop 7 cA = some (540 / 60 * 7) ∧
    eventHeight 7 cA = some (max 5 (600 - 540) / 60 * 7) := by
  have hid : ([cA, cB, cD].map Event.id).Nodup := by
    simp [cA, cB, cD]
  obtain ⟨hcl, hperm, hsort, ⟨k, hget, hw, hl⟩, htop, hh⟩ :=
    claim_C3 [cA, cB, cD] 7 cA hid numeric_scenarioA (by simp) 540 600 s_cA e_cA (by norm_num)
  refine ⟨⟨hid, numeric_scenarioA, by norm_num⟩, ?_, htop, hh⟩
  rw [hw, cl3_A]
  norm_num

/-- C10 witness: a valid event has offset in [0, 1); the degenerate event
cZ (10:00 to 09:00) has an empty cluster, index -1, a negative offset and a
clamped height. -/
theorem claim_C10_witness :
    ((540 : ℚ) < 600 ∧ 0 ≤ leftOffsetFraction [cA, cB] cA ∧
      leftOffsetFraction [cA, cB] cA < 1) ∧
    ((540 : ℚ) ≤ 600 ∧ concurrentCluster [cZ] cZ = [] ∧ myIndexZ [cZ] cZ = -1 ∧
      leftOffsetFraction [cZ] cZ < 0 ∧ eventHeight 7 cZ = some (5 / 60 * 7)) := by
  obtain ⟨h1, -⟩ := claim_C10 [cA, cB] 7 cA 540 600 s_cA e_cA
  obtain ⟨-, h2⟩ := claim_C10 [cZ] 7 cZ 600 540 s_cZ e_cZ
  obtain ⟨-, -, -, hge, hlt1⟩ := h1 (by norm_num) (by simp)
  obtain ⟨hcl, hidx, -, -, hneg, hh⟩ := h2 (by norm_num)
  exact ⟨⟨by norm_num, hge, hlt1⟩, by norm_num, hcl, hidx, hneg, hh⟩

theorem contains_iff {l : List String} {a : String} : l.contains a = true ↔ a ∈ l :=
  List.elem_iff

theorem lookup_mem_values :
    ∀ (map : ColorMap) (k v : String), List.lookup k map = some v → v ∈ mapValues map := by
  intro map
  induction map with
  | nil => intro k v h; simp [List.lookup] at h
  | cons p t ih =>
    intro k v h
    rcases p with ⟨k1, v1⟩
    by_cases hk : k == k1
    · simp only [List.lookup, hk] at h
      obtain rfl : v1 = v := by simpa using h
      simp [mapValues]
    · simp only [List.lookup, hk] at h
      have hmem := ih k v h
      simp only [mapValues, List.map_cons, List.mem_cons]
      exact Or.inr hmem

theorem headD_mem {l : List String} {d : String} (h : l ≠ []) : l.headD d ∈ l := by
  cases l with
  | nil => exact absurd rfl h
  | cons a t => simp

/-- The color the reconciler resolves always names a live category when at
least one category exists. -/
theorem resolveEventColor_mem (input : Option AssistantEventInput) (map : ColorMap)
    (hmap : map ≠ []) :
    (mapValues map).contains (resolveEventColor input map) = true := by
  unfold resolveEventColor
  have hval : mapValues map ≠ [] := by
    intro hc
    apply hmap
    unfold mapValues at hc
    exact List.map_eq_nil_iff.mp hc
  by_cases h1 : (input.bind AssistantEventInput.color).getD "" ≠ "" ∧
      (mapValues map).contains ((input.bind AssistantEventInput.color).getD "")
  · rw [if_pos h1]
    exact h1.2
  · rw [if_neg h1]
    by_cases h2 : (input.bind AssistantEventInput.category).getD "" ≠ "" ∧
        ((List.lookup ((input.bind AssistantEventInput.category).getD "") map).getD "") ≠ ""
    · rw [if_pos h2]
      rcases hl : List.lookup ((input.bind AssistantEventInput.category).getD "") map with _ | v
      · rw [hl] at h2
        simp at h2
      · show (mapValues map).contains v = true
        exact contains_iff.mpr (lookup_mem_values map _ v hl)
    · rw [if_neg h2]
      exact contains_iff.mpr (headD_mem hval)

theorem updateAtIdx_length (f : Event → Event) :
    ∀ (i : ℕ) (l : List Event), (updateAtIdx f i l).length = l.length := by
  intro i
  induction i with
  | zero => intro l; cases l <;> rfl
  | succ n ih =>
    intro l
    cases l with
    | nil => rfl
    | cons e rest => simp [updateAtIdx, ih rest]

theorem updateAtIdx_get?_eq (f : Event → Event) :
    ∀ (i : ℕ) (l : List Event) (e : Event), l.get? i = some e →
      (updateAtIdx f i l).get? i = some (f e) := by
  intro i
  induction i with
  | zero =>
    intro l e h
    cases l with
    | nil => simp at h
    | cons a rest =>
      obtain rfl : a = e := by simpa using h
      rfl
  | succ n ih =>
    intro l e h
    cases l with
    | nil => simp at h
    | cons a rest =>
      simp only [List.get?_cons_succ] at h
      simpa [updateAtIdx] using ih rest e h

theorem updateAtIdx_get?_ne (f : Event → Event) :
    ∀ (i j : ℕ) (l : List Event), j ≠ i → (updateAtIdx f i l).get? j = l.get? j := by
  intro i
  induction i with
  | zero =>
    intro j l hj
    cases l with
    | nil => rfl
    | cons a rest =>
      cases j with
      | zero => exact absurd rfl hj
      | succ jj => rfl
  | succ n ih =>
    intro j l hj
    cases l with
    | nil => rfl
    | cons a rest =>
      cases j with
      | zero => rfl
      | succ jj => simpa [updateAtIdx] using ih jj rest (by omega)

theorem mem_updateAtIdx (f : Event → Event) :
    ∀ (i : ℕ) (l : List Event) (x : Event), x ∈ updateAtIdx f i l →
      (∃ e, e ∈ l ∧ x = f e) ∨ x ∈ l := by
  intro i
  induction i with
  | zero =>
    intro l x hx
    cases l with
    | nil => simp [updateAtIdx] at hx
    | cons a rest =>
      rcases List.mem_cons.mp hx with rfl | hx2
      · exact Or.inl ⟨a, by simp, rfl⟩
      · exact Or.inr (List.mem_cons_of_mem a hx2)
  | succ n ih =>
    intro l x hx
    cases l with
    | nil => simp [updateAtIdx] at hx
    | cons a rest =>
      rcases List.mem_cons.mp hx with rfl | hx2
      · exact Or.inr (by simp)
      · rcases ih rest x hx2 with ⟨e, he, rfl⟩ | hmem
        · exact Or.inl ⟨e, List.mem_cons_of_mem a he, rfl⟩
        · exact Or.inr (List.mem_cons_of_mem a hmem)

theorem updateAtIdx_map_id :
    ∀ (i : ℕ) (l : List Event) (m ev : Event), l.get? i = some ev → m.id = ev.id →
      (updateAtIdx (fun _ => m) i l).map Event.id = l.map Event.id := by
  intro i
  induction i with
  | zero =>
    intro l m ev hget hid
    cases l with
    | nil => simp at hget
    | cons a rest =>
      obtain rfl : a = ev := by simpa using hget
      simp [updateAtIdx, hid]
  | succ n ih =>
    intro l m ev hget hid
    cases l with
    | nil => simp at hget
    | cons a rest =>
      simp only [List.get?_cons_succ] at hget
      simp [updateAtIdx, ih rest m ev hget hid]

/-- One reconciler action preserves the Repository invariants, given its
side conditions and a nonempty category map. -/
theorem step_preserves (map : ColorMap) (gen : ℕ → String) (st : ReconcilerState)
    (a : AssistantAction) (hmap : map ≠ [])
    (hinv : RepoInvariants map st.events) (hok : ActionOk gen st a) :
    RepoInvariants map (applyAssistantAction map gen st a).events := by
  obtain ⟨hn, hr, hc⟩ := hinv
  rcases a with ⟨ty, ev⟩
  cases ty with
  | create =>
    cases ev with
    | none => exact ⟨hn, hr, hc⟩
    | some input =>
      show RepoInvariants map (applyCreate map gen st input).events
      unfold applyCreate
      rcases hd : parseAssistantDate input.date with _ | d
      · exact ⟨hn, hr, hc⟩
      · obtain ⟨hfresh, hrange⟩ := hok d hd
        dsimp only
        refine ⟨?_, ?_, ?_⟩
        · rw [List.map_append, List.nodup_append]
          refine ⟨hn, by simp, ?_⟩
          intro x hx hy
          simp only [List.map_cons, List.map_nil, List.mem_singleton] at hy
          subst hy
          exact hfresh hx
        · intro e he
          rcases List.mem_append.mp he with hold | hnew
          · exact hr e hold
          · obtain rfl : e = _ := by simpa using hnew
            exact hrange
        · intro e he
          rcases List.mem_append.mp he with hold | hnew
          · exact hc e hold
          · obtain rfl : e = _ := by simpa using hnew
            exact resolveEventColor_mem (some input) map hmap
  | update =>
    cases ev with
    | none => exact ⟨hn, hr, hc⟩
    | some input =>
      show RepoInvariants map (applyUpdate map gen st input).events
      unfold applyUpdate
      rcases hid : input.id with _ | tid
      · exact ⟨hn, hr, hc⟩
      · dsimp only
        by_cases htid : tid = ""
        · rw [if_pos htid]
          exact ⟨hn, hr, hc⟩
        · rw [if_neg htid]
          split
          · exact ⟨hn, hr, hc⟩
          next i hfind =>
            split
            · exact ⟨hn, hr, hc⟩
            next ev0 hget =>
              dsimp only
              have hidkeep : (mergeUpdate map gen st.counter input ev0).1.id = ev0.id := rfl
              have hok2 := hok tid hid htid i ev0 hfind hget
              refine ⟨?_, ?_, ?_⟩
              · rw [updateAtIdx_map_id i st.events _ ev0 hget hidkeep]
                exact hn
              · intro e he
                rcases mem_updateAtIdx _ i st.events e he with ⟨e0, he0, rfl⟩ | hmem
                · unfold startN endN
                  exact hok2
                · exact hr e hmem
              · intro e he
                rcases mem_updateAtIdx _ i st.events e he with ⟨e0, he0, rfl⟩ | hmem
                · show (mapValues map).contains (mergeUpdate map gen st.counter input ev0).1.color = true
                  unfold mergeUpdate
                  simp only
                  by_cases hcol : input.color.getD "" ≠ "" ∨ input.category.getD "" ≠ ""
                  · rw [if_pos hcol]
                    exact resolveEventColor_mem (some input) map hmap
                  · rw [if_neg hcol]
                    exact hc ev0 (List.get?_mem hget)
                · exact hc e hmem
  | delete =>
    show RepoInvariants map (applyDelete st ev).events
    unfold applyDelete
    rcases hid : ev.bind AssistantEventInput.id with _ | tid
    · exact ⟨hn, hr, hc⟩
    · dsimp only
      by_cases htid : tid = ""
      · rw [if_pos htid]
        exact ⟨hn, hr, hc⟩
      · rw [if_neg htid]
        refine ⟨?_, ?_, ?_⟩
        · exact hn.sublist ((List.filter_sublist st.events).map Event.id)
        · intro e he
          exact hr e (List.mem_of_mem_filter he)
        · intro e he
          exact hc e (List.mem_of_mem_filter he)

theorem fold_preserves (map : ColorMap) (gen : ℕ → String) :
    ∀ (actions : List AssistantAction) (st : ReconcilerState), map ≠ [] →
      RepoInvariants map st.events → BatchOk map gen st actions →
      RepoInvariants map ((actions.foldl (applyAssistantAction map gen) st).events) := by
  intro actions
  induction actions with
  | nil =>
    intro st _ hinv _
    simpa using hinv
  | cons a rest ih =>
    intro st hmap hinv hok
    rw [List.foldl_cons]
    exact ih _ hmap (step_preserves map gen st a hmap hinv hok.1) hok.2

/-- C2 (amended): with a nonempty category map, a batch whose create
actions use fresh ids and valid effective time ranges and whose update
actions leave valid time ranges preserves all Repository invariants. -/
theorem claim_C2 (map : ColorMap) (gen : ℕ → String) (events : List Event)
    (actions : List AssistantAction) (hmap : map ≠ [])
    (hinv : RepoInvariants map events)
    (hok : BatchOk map gen ⟨events, 0⟩ actions) :
    RepoInvariants map (applyAssistantActions map gen actions events) := by
  unfold applyAssistantActions
  by_cases hnil : actions = []
  · rw [if_pos hnil]
    exact hinv
  · rw [if_neg hnil]
    exact fold_preserves map gen actions ⟨events, 0⟩ hmap hinv hok

theorem c2_base_invariants : RepoInvariants c2Map [c2Event] := by
  refine ⟨by decide, ?_, by decide⟩
  intro e he
  obtain rfl : e = c2Event := by simpa using he
  rw [show startN c2Event = some 540 from tm_0900,
    show endN c2Event = some 600 from tm_1000, jsLt_some, decide_eq_true_iff]
  norm_num

/-- C2 counterexample: a create action whose explicit id duplicates a
stored id and whose explicit times are inverted is applied unchecked, so a
collection satisfying all Repository invariants stops satisfying them. -/
theorem claim_C2_cex :
    RepoInvariants c2Map [c2Event] ∧
    ¬ RepoInvariants c2Map (applyAssistantActions c2Map c2Gen [c2Action] [c2Event]) := by
  refine ⟨c2_base_invariants, ?_⟩
  intro hinv
  have hids := hinv.1
  have happ : applyAssistantActions c2Map c2Gen [c2Action] [c2Event] =
      [c2Event, ⟨"a", "X", "", ⟨2024, 5, 1⟩, "10:00", "09:00", "blue", []⟩] := by decide
  rw [happ] at hids
  simp [c2Event] at hids

/-- C2 witness: a batch with a fresh id and a valid range preserves the
invariants. -/
theorem claim_C2_witness :
    (c2Map ≠ [] ∧ RepoInvariants c2Map [c2Event] ∧
      BatchOk c2Map c2Gen ⟨[c2Event], 0⟩ [c2GoodAction]) ∧
    RepoInvariants c2Map (applyAssistantActions c2Map c2Gen [c2GoodAction] [c2Event]) := by
  have hok : BatchOk c2Map c2Gen ⟨[c2Event], 0⟩ [c2GoodAction] := by
    refine ⟨?_, trivial⟩
    intro d _
    refine ⟨by decide, ?_⟩
    show jsLt (timeToMinutes "11:00") (timeToMinutes "12:00") = true
    rw [tm_1100, tm_1200, jsLt_some, decide_eq_true_iff]
    norm_num
  exact ⟨⟨by decide, c2_base_invariants, hok⟩,
    claim_C2 c2Map c2Gen [c2Event] [c2GoodAction] (by decide) c2_base_invariants hok⟩

theorem jsOrStr_some (s b : String) : jsOrStr (some s) b = if s = "" then b else s := rfl

theorem jsOrStr_none (b : String) : jsOrStr none b = b := rfl

theorem lookup_pair_mem :
    ∀ (map : ColorMap) (k v : String), List.lookup k map = some v → (k, v) ∈ map := by
  intro map
  induction map with
  | nil => intro k v h; simp [List.lookup] at h
  | cons p t ih =>
    intro k v h
    rcases p with ⟨k1, v1⟩
    by_cases hk : k == k1
    · simp only [List.lookup, hk] at h
      obtain rfl : v1 = v := by simpa using h
      obtain rfl : k = k1 := by simpa using hk
      simp
    · simp only [List.lookup, hk] at h
      exact List.mem_cons_of_mem _ (ih k v h)

theorem mem_values_ne_blank (map : ColorMap) (c : String)
    (hwf : ∀ p ∈ map, p.1 ≠ "" ∧ p.2 ≠ "") (hmem : c ∈ mapValues map) : c ≠ "" := by
  obtain ⟨p, hp, rfl⟩ := List.mem_map.mp hmem
  exact (hwf p hp).2

theorem resolveEventColor_provided (input : AssistantEventInput) (map : ColorMap)
    (c : String) (hwf : ∀ p ∈ map, p.1 ≠ "" ∧ p.2 ≠ "") (hc : input.color = some c)
    (hmem : (mapValues map).contains c = true) :
    resolveEventColor (some input) map = c := by
  unfold resolveEventColor
  simp only [Option.some_bind]
  rw [hc]
  simp only [Option.getD_some]
  rw [if_pos ⟨mem_values_ne_blank map c hwf (contains_iff.mp hmem), hmem⟩]

theorem resolveEventColor_category (input : AssistantEventInput) (map : ColorMap)
    (g col : String) (hwf : ∀ p ∈ map, p.1 ≠ "" ∧ p.2 ≠ "")
    (hnc : ∀ c, input.color = some c → (mapValues map).contains c = false)
    (hg : input.category = some g) (hl : List.lookup g map = some col) :
    resolveEventColor (some input) map = col := by
  have hgcol : (g, col) ∈ map := lookup_pair_mem map g col hl
  have hcol_ne : col ≠ "" := (hwf _ hgcol).2
  have hg_ne : g ≠ "" := (hwf _ hgcol).1
  unfold resolveEventColor
  simp only [Option.some_bind]
  rw [hg]
  simp only [Option.getD_some]
  rw [if_neg, if_pos, hl]
  · rfl
  · rw [hl]
    exact ⟨hg_ne, by simpa using hcol_ne⟩
  · rintro ⟨hne, hcon⟩
    rcases hoc : input.color with _ | c
    · rw [hoc] at hne
      simp at hne
    · rw [hoc] at hcon
      simp only [Option.getD_some] at hcon
      rw [hnc c hoc] at hcon
      simp at hcon

theorem resolveEventColor_fallback (input : AssistantEventInput) (map : ColorMap)
    (hnc : ∀ c, input.color = some c → (mapValues map).contains c = false)
    (hng : ∀ g, input.category = some g → List.lookup g map = none) :
    resolveEventColor (some input) map =
      (mapValues map).headD (AVAILABLE_COLORS.headD "blue") := by
  unfold resolveEventColor
  simp only [Option.some_bind]
  rw [if_neg, if_neg]
  · rintro ⟨hne, hgd⟩
    rcases hog : input.category with _ | g
    · rw [hog] at hne
      simp at hne
    · rw [hog] at hgd
      rw [show (some g).getD "" = g from rfl, hng g hog] at hgd
      simp at hgd
  · rintro ⟨hne, hcon⟩
    rcases hoc : input.color with _ | c
    · rw [hoc] at hne
      simp at hne
    · rw [hoc] at hcon
      rw [show (some c).getD "" = c from rfl, hnc c hoc] at hcon
      simp at hcon

/-- C4: a create action without a parseable date is skipped wholesale;
otherwise exactly one new event is appended, its title defaulting to the
placeholder when absent or blank, its times defaulting to 09:00/10:00 when
absent, and its color resolved per the rule (matching given color, else
named category color, else first category color, else the palette head),
stated for a well-formed map (nonempty names and colors). -/
theorem claim_C4 (map : ColorMap) (gen : ℕ → String) (st : ReconcilerState)
    (input : AssistantEventInput)
    (hwf : ∀ p ∈ map, p.1 ≠ "" ∧ p.2 ≠ "") :
    (parseAssistantDate input.date = none →
      applyAssistantAction map gen st ⟨ActionType.create, some input⟩ = st) ∧
    (∀ d, parseAssistantDate input.date = some d →
      ∃ newEvent : Event,
        (applyAssistantAction map gen st ⟨ActionType.create, some input⟩).events =
          st.events ++ [newEvent] ∧
        newEvent.date = d ∧
        ((input.title = none ∨ strTrim (input.title.getD "") = "") →
          newEvent.title = "Nuovo evento") ∧
        (input.startTime = none → newEvent.startTime = "09:00") ∧
        (input.endTime = none → newEvent.endTime = "10:00") ∧
        (∀ c, input.color = some c → (mapValues map).contains c = true →
          newEvent.color = c) ∧
        (∀ g col, (∀ c, input.color = some c → (mapValues map).contains c = false) →
          input.category = some g → List.lookup g map = some col →
          newEvent.color = col) ∧
        ((∀ c, input.color = some c → (mapValues map).contains c = false) →
          (∀ g, input.category = some g → List.lookup g map = none) →
          newEvent.color = (mapValues map).headD (AVAILABLE_COLORS.headD "blue"))) := by
  constructor
  · intro hd
    show applyCreate map gen st input = st
    unfold applyCreate
    rw [hd]
  · intro d hd
    show ∃ newEvent : Event, (applyCreate map gen st input).events = st.events ++ [newEvent] ∧ _
    unfold applyCreate
    rw [hd]
    dsimp only
    refine ⟨_, rfl, rfl, ?_, ?_, ?_, ?_, ?_, ?_⟩
    · rintro (hni | hblank)
      · rw [hni]
        rfl
      · rcases hti : input.title with _ | t
        · rfl
        · have hbt : strTrim t = "" := by
            rw [hti] at hblank
            simpa using hblank
          show jsOrStr (some (strTrim t)) "Nuovo evento" = "Nuovo evento"
          rw [jsOrStr_some, if_pos hbt]
    · intro h
      rw [h]
      rfl
    · intro h
      rw [h]
      rfl
    · intro c hc hmem
      exact resolveEventColor_provided input map c hwf hc hmem
    · intro g col hnc hg hl
      exact resolveEventColor_category input map g col hwf hnc hg hl
    · intro hnc hng
      exact resolveEventColor_fallback input map hnc hng

/-- C4 witness: scenario C, the assistant creating a titled event on
2024-05-01 with every other field defaulted. -/
theorem claim_C4_witness :
    ((∀ p ∈ c4Map, p.1 ≠ "" ∧ p.2 ≠ "") ∧
      parseAssistantDate c4Input.date = some ⟨2024, 5, 1⟩) ∧
    ∃ newEvent : Event,
      (applyAssistantAction c4Map c2Gen ⟨[], 0⟩ ⟨ActionType.create, some c4Input⟩).events =
        [] ++ [newEvent] ∧
      newEvent.startTime = "09:00" ∧ newEvent.endTime = "10:00" ∧
      newEvent.color = "blue" := by
  have hwf : ∀ p ∈ c4Map, p.1 ≠ "" ∧ p.2 ≠ "" := by decide
  have hd : parseAssistantDate c4Input.date = some ⟨2024, 5, 1⟩ := by decide
  obtain ⟨-, h2⟩ := claim_C4 c4Map c2Gen ⟨[], 0⟩ c4Input hwf
  obtain ⟨ev, happ, -, -, hst, hen, -, -, hfb⟩ := h2 ⟨2024, 5, 1⟩ hd
  refine ⟨⟨hwf, hd⟩, ev, happ, hst rfl, hen rfl, ?_⟩
  rw [hfb ?_ ?_]
  · decide
  · intro c hc
    rw [show c4Input.color = none from rfl] at hc
    exact absurd hc (by simp)
  · intro g hg
    rw [show c4Input.category = none from rfl] at hg
    exact absurd hg (by simp)

/-- C5: an update whose id is missing, blank, or unmatched leaves the state
unchanged; otherwise only the matched event changes, its id is preserved,
every absent payload field keeps the stored value, and a present but
unparseable date is ignored (prior date kept) while a nonblank title still
applies (trimmed). -/
theorem claim_C5 (map : ColorMap) (gen : ℕ → String) (st : ReconcilerState)
    (input : AssistantEventInput) :
    ((input.id = none ∨ input.id = some "" ∨
        ∀ e ∈ st.events, e.id ≠ input.id.getD "") →
      applyAssistantAction map gen st ⟨ActionType.update, some input⟩ = st) ∧
    (∀ tid i ev, input.id = some tid → tid ≠ "" →
      st.events.findIdx? (fun e => e.id = tid) = some i →
      st.events.get? i = some ev →
      ∃ ev2 : Event,
        (applyAssistantAction map gen st ⟨ActionType.update, some input⟩).events =
          updateAtIdx (fun _ => ev2) i st.events ∧
        ev2.id = ev.id ∧
        (∀ j, j ≠ i →
          (applyAssistantAction map gen st ⟨ActionType.update, some input⟩).events.get? j =
            st.events.get? j) ∧
        (input.title = none → ev2.title = ev.title) ∧
        (∀ t, input.title = some t → strTrim t ≠ "" → ev2.title = strTrim t) ∧
        (input.description = none → ev2.description = ev.description) ∧
        (input.date = none → ev2.date = ev.date) ∧
        (∀ ds, input.date = some ds → jsDateParse ds = none → ev2.date = ev.date) ∧
        (input.startTime = none → ev2.startTime = ev.startTime) ∧
        (input.endTime = none → ev2.endTime = ev.endTime) ∧
        (input.color = none → input.category = none → ev2.color = ev.color) ∧
        (input.todos = none → ev2.todos = ev.todos)) := by
  constructor
  · intro hskip
    show applyUpdate map gen st input = st
    unfold applyUpdate
    rcases hid : input.id with _ | tid
    · rfl
    · dsimp only
      rcases hskip with hnone | hblank | hmiss
      · rw [hid] at hnone
        exact absurd hnone (by simp)
      · rw [hid] at hblank
        obtain rfl : tid = "" := by simpa using hblank
        rw [if_pos rfl]
      · by_cases htid : tid = ""
        · rw [if_pos htid]
        · rw [if_neg htid]
          have hfind : st.events.findIdx? (fun e => e.id = tid) = none := by
            rw [List.findIdx?_eq_none_iff]
            intro x hx
            have hne := hmiss x hx
            rw [hid] at hne
            simpa using hne
          split
          · rfl
          next i hfound =>
            rw [hfind] at hfound
            exact absurd hfound (by simp)
  · intro tid i ev hid htid hfind hget
    have happ : applyUpdate map gen st input =
        ⟨updateAtIdx (fun _ => (mergeUpdate map gen st.counter input ev).1) i st.events,
          (mergeUpdate map gen st.counter input ev).2⟩ := by
      unfold applyUpdate
      rw [hid]
      dsimp only
      rw [if_neg htid]
      split
      · next hf0 =>
        rw [hfind] at hf0
        exact absurd hf0 (by simp)
      next i2 hf2 =>
        rw [hfind] at hf2
        obtain rfl : i = i2 := by simpa using hf2
        split
        · next hg0 =>
          rw [hget] at hg0
          exact absurd hg0 (by simp)
        next ev2 hg2 =>
          rw [hget] at hg2
          obtain rfl : ev = ev2 := by simpa using hg2
          rfl
    refine ⟨(mergeUpdate map gen st.counter input ev).1,
      by rw [show applyAssistantAction map gen st ⟨ActionType.update, some input⟩ =
        applyUpdate map gen st input from rfl, happ],
      rfl, ?_, ?_, ?_, ?_, ?_, ?_, ?_, ?_, ?_, ?_⟩
    · intro j hj
      rw [show applyAssistantAction map gen st ⟨ActionType.update, some input⟩ =
        applyUpdate map gen st input from rfl, happ]
      exact updateAtIdx_get?_ne _ i j st.events hj
    · intro h
      show jsOrStr (input.title.map strTrim) ev.title = ev.title
      rw [h]
      rfl
    · intro t ht hne
      show jsOrStr (input.title.map strTrim) ev.title = strTrim t
      rw [ht]
      show jsOrStr (some (strTrim t)) ev.title = strTrim t
      rw [jsOrStr_some, if_neg hne]
    · intro h
      show (match input.description with
        | some ds => strTrim ds
        | none => ev.description) = ev.description
      rw [h]
    · intro h
      show (parseAssistantDate input.date).getD ev.date = ev.date
      rw [h]
      rfl
    · intro ds hds hparse
      show (parseAssistantDate input.date).getD ev.date = ev.date
      rw [hds]
      show (if ds = "" then none else jsDateParse ds).getD ev.date = ev.date
      by_cases hblank : ds = ""
      · rw [if_pos hblank]
        rfl
      · rw [if_neg hblank, hparse]
        rfl
    · intro h
      show jsOrStr input.startTime ev.startTime = ev.startTime
      rw [h]
      rfl
    · intro h
      show jsOrStr input.endTime ev.endTime = ev.endTime
      rw [h]
      rfl
    · intro hc hg
      show (if input.color.getD "" ≠ "" ∨ input.category.getD "" ≠ "" then
        resolveEventColor (some input) map else ev.color) = ev.color
      rw [hc, hg]
      rw [if_neg (by simp)]
    · intro h
      show ((match input.todos with
        | some ts => (some (normaliseTodosGo gen st.counter ts).1,
            (normaliseTodosGo gen st.counter ts).2)
        | none => ((none : Option (List ToDoItem)), st.counter)).1).getD ev.todos = ev.todos
      rw [h]
      rfl

/-- C5 witness: scenario D, an update naming a missing id leaves the
repository unchanged. -/
theorem claim_C5_witness :
    (∀ e ∈ [c2Event], e.id ≠ "missing-id") ∧
    applyAssistantAction c2Map c2Gen ⟨[c2Event], 0⟩
      ⟨ActionType.update,
        some ⟨some "missing-id", some "X", none, none, none, none, none, none, none⟩⟩ =
      ⟨[c2Event], 0⟩ := by
  obtain ⟨h1, -⟩ := claim_C5 c2Map c2Gen ⟨[c2Event], 0⟩
    ⟨some "missing-id", some "X", none, none, none, none, none, none, none⟩
  exact ⟨by decide, h1 (Or.inr (Or.inr (by decide)))⟩

theorem validateCategories_ok (defs cats : List CategoryDefinition)
    (hok : validateCategories defs = Except.ok cats) :
    cats = trimCategories defs ∧ cats ≠ [] := by
  unfold validateCategories at hok
  by_cases h1 : trimCategories defs = []
  · rw [if_pos h1] at hok
    exact absurd hok (by simp)
  · rw [if_neg h1] at hok
    by_cases h2 : ((trimCategories defs).map (fun c => c.name.toLower)).Nodup
    · rw [if_neg (not_not_intro h2)] at hok
      by_cases h3 : ((trimCategories defs).map CategoryDefinition.color).Nodup
      · rw [if_neg (not_not_intro h3)] at hok
        obtain rfl : trimCategories defs = cats := by simpa using hok
        exact ⟨rfl, h1⟩
      · rw [if_pos h3] at hok
        exact absurd hok (by simp)
    · rw [if_pos h2] at hok
      exact absurd hok (by simp)

/-- C6: setCategories surfaces an error and leaves both the category
mapping and the event collection unchanged whenever the trimmed definition
set is empty, two entries share a case-insensitive name, or two entries
share a color. -/
theorem claim_C6 (defs : List CategoryDefinition) (st : AppState)
    (hbad : trimCategories defs = [] ∨
      ¬ ((trimCategories defs).map (fun c => c.name.toLower)).Nodup ∨
      ¬ ((trimCategories defs).map CategoryDefinition.color).Nodup) :
    (setCategories defs st).1 = st ∧ (setCategories defs st).2.isSome = true := by
  unfold setCategories validateCategories
  by_cases h1 : trimCategories defs = []
  · rw [if_pos h1]
    exact ⟨rfl, rfl⟩
  · rw [if_neg h1]
    by_cases h2 : ((trimCategories defs).map (fun c => c.name.toLower)).Nodup
    · rw [if_neg (not_not_intro h2)]
      have h3 : ¬ ((trimCategories defs).map CategoryDefinition.color).Nodup := by
        rcases hbad with hb | hb | hb
        · exact absurd hb h1
        · exact absurd h2 hb
        · exact hb
      rw [if_pos h3]
      exact ⟨rfl, rfl⟩
    · rw [if_pos h2]
      exact ⟨rfl, rfl⟩

/-- C6 witness: scenario B, two categories sharing the color blue are
rejected and the category set is unchanged. -/
theorem claim_C6_witness :
    (¬ ((trimCategories c6Defs).map CategoryDefinition.color).Nodup) ∧
    (setCategories c6Defs c6State).1 = c6State ∧
    (setCategories c6Defs c6State).1.colorMap = c6State.colorMap ∧
    (setCategories c6Defs c6State).2.isSome = true := by
  have hdup : ¬ ((trimCategories c6Defs).map CategoryDefinition.color).Nodup := by decide
  obtain ⟨ha, hb⟩ := claim_C6 c6Defs c6State (Or.inr (Or.inr hdup))
  exact ⟨hdup, ha, by rw [ha], hb⟩

/-- C7: after a successful setCategories with validated list cats, every
event with a surviving color is unchanged, every other event is recolored
to the first category's color, a stale nonblank filter is cleared and a
surviving one kept; the repair happens in the same save step (no error is
surfaced and the single resulting state carries both changes). -/
theorem claim_C7 (defs cats : List CategoryDefinition) (st : AppState)
    (hok : validateCategories defs = Except.ok cats) :
    (setCategories defs st).2 = none ∧
    cats ≠ [] ∧
    (∀ j e, st.events.get? j = some e →
      ((cats.map CategoryDefinition.color).contains e.color = true →
        (setCategories defs st).1.events.get? j = some e) ∧
      (∀ c0, cats.head? = some c0 →
        (cats.map CategoryDefinition.color).contains e.color = false →
        (setCategories defs st).1.events.get? j = some (withColor e c0.color))) ∧
    (∀ f, st.activeFilter = some f → f ≠ "" →
      (cats.map CategoryDefinition.color).contains f = false →
      (setCategories defs st).1.activeFilter = none) ∧
    (∀ f, st.activeFilter = some f →
      (cats.map CategoryDefinition.color).contains f = true →
      (setCategories defs st).1.activeFilter = some f) := by
  obtain ⟨-, hne⟩ := validateCategories_ok defs cats hok
  have hset : setCategories defs st = (handleSaveCategories cats st, none) := by
    unfold setCategories
    rw [hok]
  rw [hset]
  refine ⟨rfl, hne, ?_, ?_, ?_⟩
  · intro j e hj
    constructor
    · intro hcon
      show (handleSaveCategories cats st).events.get? j = some e
      unfold handleSaveCategories
      rw [if_neg hne]
      dsimp only
      rw [List.get?_map, hj, Option.map_some', if_pos hcon]
    · intro c0 hc0 hcon
      show (handleSaveCategories cats st).events.get? j = some (withColor e c0.color)
      unfold handleSaveCategories
      rw [if_neg hne]
      dsimp only
      rw [List.get?_map, hj, Option.map_some', if_neg (by rw [hcon]; exact Bool.false_ne_true), hc0]
      rfl
  · intro f hf hfne hcon
    show (handleSaveCategories cats st).activeFilter = none
    unfold handleSaveCategories
    rw [if_neg hne]
    dsimp only
    rw [hf]
    dsimp only
    rw [if_pos ⟨hfne, by rw [hcon]; exact Bool.false_ne_true⟩]
  · intro f hf hcon
    show (handleSaveCategories cats st).activeFilter = some f
    unfold handleSaveCategories
    rw [if_neg hne]
    dsimp only
    rw [hf]
    dsimp only
    rw [if_neg (by rintro ⟨-, hno⟩; rw [hcon] at hno; exact hno rfl)]

/-- C7 witness: replacing the categories with a single red one recolors
the blue event to red and clears the stale green filter, with no error. -/
theorem claim_C7_witness :
    validateCategories c7Defs = Except.ok [⟨"work", "red"⟩] ∧
    (setCategories c7Defs c7State).2 = none ∧
    (setCategories c7Defs c7State).1.events.get? 0 = some (withColor c2Event "red") ∧
    (setCategories c7Defs c7State).1.activeFilter = none := by
  have hok : validateCategories c7Defs = Except.ok [⟨"work", "red"⟩] := rfl
  obtain ⟨h2none, -, hev, hclear, -⟩ := claim_C7 c7Defs [⟨"work", "red"⟩] c7State hok
  refine ⟨hok, h2none, ?_, ?_⟩
  · exact (hev 0 c2Event rfl).2 ⟨"work", "red"⟩ rfl (by decide)
  · exact hclear "green" rfl (by decide) (by decide)

theorem digitChar_lt_iff (x y : ℕ) (hx : x ≤ 9) (hy : y ≤ 9) :
    digitChar x < digitChar y ↔ x < y := by
  interval_cases x <;> interval_cases y <;> decide

theorem mkTime_lt_of (a b c d : ℕ) (ha : a < 24) (hb : b < 60) (hc : c < 24) (hd : d < 60)
    (h : a * 60 + b < c * 60 + d) : mkTime a b < mkTime c d := by
  rw [String.lt_iff_toList_lt]
  show List.Lex (· < ·)
    [digitChar (a / 10), digitChar (a % 10), ':', digitChar (b / 10), digitChar (b % 10)]
    [digitChar (c / 10), digitChar (c % 10), ':', digitChar (d / 10), digitChar (d % 10)]
  rcases Nat.lt_trichotomy (a / 10) (c / 10) with h1 | h1 | h1
  · exact List.Lex.rel ((digitChar_lt_iff _ _ (by omega) (by omega)).mpr h1)
  · rw [show digitChar (a / 10) = digitChar (c / 10) from by rw [h1]]
    apply List.Lex.cons
    rcases Nat.lt_trichotomy (a % 10) (c % 10) with h2 | h2 | h2
    · exact List.Lex.rel ((digitChar_lt_iff _ _ (by omega) (by omega)).mpr h2)
    · rw [show digitChar (a % 10) = digitChar (c % 10) from by rw [h2]]
      apply List.Lex.cons
      apply List.Lex.cons
      have hac : a = c := by omega
      subst hac
      rcases Nat.lt_trichotomy (b / 10) (d / 10) with h3 | h3 | h3
      · exact List.Lex.rel ((digitChar_lt_iff _ _ (by omega) (by omega)).mpr h3)
      · rw [show digitChar (b / 10) = digitChar (d / 10) from by rw [h3]]
        apply List.Lex.cons
        exact List.Lex.rel ((digitChar_lt_iff _ _ (by omega) (by omega)).mpr (by omega))
      · exfalso
        omega
    · exfalso
      omega
  · exfalso
    omega

theorem mkTime_ge_of (a b c d : ℕ) (ha : a < 24) (hb : b < 60) (hc : c < 24) (hd : d < 60)
    (h : c * 60 + d ≤ a * 60 + b) : ¬ mkTime a b < mkTime c d := by
  rcases eq_or_lt_of_le h with heq | hlt
  · have hac : a = c := by omega
    have hbd : b = d := by omega
    subst hac
    subst hbd
    exact lt_irrefl _
  · exact asymm (mkTime_lt_of c d a b hc hd ha hb hlt)

/-- C8 (amended): through the modal save path a draft whose title trims
blank, or whose startTime >= endTime — string comparison, which on
zero-padded HH:mm times coincides with minute-offset comparison — is
rejected and the prior event collection is untouched.  The Repository save
itself does not re-check (see the counterexample). -/
theorem claim_C8 (genId : String) (m : ModalState) (events : List Event)
    (a b c d : ℕ) (ha : a < 24) (hb : b < 60) (hc : c < 24) (hd : d < 60)
    (hstart : m.startTime = mkTime a b) (hend : m.endTime = mkTime c d)
    (hbad : strTrim m.title = "" ∨
      (∃ s t : ℚ, timeToMinutes m.startTime = some s ∧ timeToMinutes m.endTime = some t ∧
        t ≤ s)) :
    saveDraftViaModal genId m events = events := by
  have hmod : modalHandleSave m = none := by
    unfold modalHandleSave
    by_cases ht : strTrim m.title = ""
    · rw [if_pos ht]
    · rw [if_neg ht]
      rcases hbad with hb1 | ⟨s, t, hs, htt, hle⟩
      · exact absurd hb1 ht
      · rw [hstart, timeToMinutes_mkTime a b ha hb] at hs
        rw [hend, timeToMinutes_mkTime c d hc hd] at htt
        have hsv : s = ((a * 60 + b : ℕ) : ℚ) := by simpa using hs.symm
        have htv : t = ((c * 60 + d : ℕ) : ℚ) := by simpa using htt.symm
        have hnat : c * 60 + d ≤ a * 60 + b := by
          rw [hsv, htv] at hle
          exact_mod_cast hle
        rw [hstart, hend, if_pos (mkTime_ge_of a b c d ha hb hc hd hnat)]
  unfold saveDraftViaModal
  rw [hmod]

/-- C8 counterexample: the Repository save path applies a draft with a
blank title unchecked — the collection changes, so no re-validation
happens outside the modal. -/
theorem claim_C8_cex :
    strTrim badDraft.title = "" ∧ handleSaveEvent "fresh" badDraft [] ≠ [] := by
  exact ⟨rfl, by decide⟩

/-- C8 witness: a blank-title draft and an inverted-times draft are both
rejected by the modal save path, leaving the collection untouched. -/
theorem claim_C8_witness :
    (strTrim c8Modal1.title = "" ∧
      saveDraftViaModal "fresh" c8Modal1 [c2Event] = [c2Event]) ∧
    ((∃ s t : ℚ, timeToMinutes c8Modal2.startTime = some s ∧
        timeToMinutes c8Modal2.endTime = some t ∧ t ≤ s) ∧
      saveDraftViaModal "fresh" c8Modal2 [c2Event] = [c2Event]) := by
  have htimes : ∃ s t : ℚ, timeToMinutes c8Modal2.startTime = some s ∧
      timeToMinutes c8Modal2.endTime = some t ∧ t ≤ s :=
    ⟨600, 540, tm_1000, tm_0900, by norm_num⟩
  refine ⟨⟨rfl, ?_⟩, ⟨htimes, ?_⟩⟩
  · exact claim_C8 "fresh" c8Modal1 [c2Event] 9 0 10 0 (by norm_num) (by norm_num)
      (by norm_num) (by norm_num) (by decide) (by decide) (Or.inl rfl)
  · exact claim_C8 "fresh" c8Modal2 [c2Event] 10 0 9 0 (by norm_num) (by norm_num)
      (by norm_num) (by norm_num) (by decide) (by decide) (Or.inr htimes)

theorem splitOnChar_ne_nil (sep : Char) (cs : List Char) : splitOnChar sep cs ≠ [] := by
  cases cs with
  | nil => simp [splitOnChar]
  | cons c rest =>
    unfold splitOnChar
    rcases h : splitOnChar sep rest with _ | ⟨h0, t⟩
    · simp
    · by_cases hc : c = sep <;> simp [hc]

/-- C9 (amended): timeToMinutes never fails: "24:00" maps to 1440, a
zero-padded well-formed HH:mm string maps to HH*60+mm, empty input or
input without a colon maps to 0 — but an input containing a colon whose
hour component is not numeric yields NaN (none), not 0. -/
theorem claim_C9 :
    (∀ h m : ℕ, h < 24 → m < 60 →
      timeToMinutes (mkTime h m) = some ((h * 60 + m : ℕ) : ℚ)) ∧
    timeToMinutes "24:00" = some 1440 ∧
    (∀ s : String, s = "" ∨ ¬ s.toList.contains ':' → timeToMinutes s = some 0) ∧
    (∀ s : String, s ≠ "" → s.toList.contains ':' = true →
      jsNumberL ((splitOnChar ':' s.toList).getD 0 []) = none → timeToMinutes s = none) := by
  refine ⟨timeToMinutes_mkTime, ?_, ?_, ?_⟩
  · have h24 : jsNumberL ['2', '4'] = some 24 := by
      rw [show (['2', '4'] : List Char) = [digitChar 2, digitChar 4] from by decide,
        jsNumberL_two_digits 2 4 (by norm_num) (by norm_num)]
      norm_num
    have h00 : jsNumberL ['0', '0'] = some 0 := by
      rw [show (['0', '0'] : List Char) = [digitChar 0, digitChar 0] from by decide,
        jsNumberL_two_digits 0 0 (by norm_num) (by norm_num)]
      norm_num
    have hsplit : splitOnChar ':' ("24:00" : String).toList = [['2', '4'], ['0', '0']] := by
      decide
    unfold timeToMinutes
    rw [if_neg (by decide), hsplit]
    simp only [List.map_cons, List.map_nil, h24, h00, List.getD_cons_zero, List.getD_cons_succ]
    simp
  · intro s hs
    unfold timeToMinutes
    rw [if_pos hs]
  · intro s hne hcon hnan
    unfold timeToMinutes
    rw [if_neg (by push_neg; exact ⟨hne, hcon⟩)]
    rcases hsp : splitOnChar ':' s.toList with _ | ⟨p0, ps⟩
    · exact absurd hsp (splitOnChar_ne_nil ':' s.toList)
    · rw [hsp] at hnan
      simp only [List.getD_cons_zero] at hnan
      simp only [List.map_cons, List.getD_cons_zero, hnan]
      rw [if_neg (by rintro ⟨hcontra, -⟩; exact Option.noConfusion hcontra)]
      rfl

/-- C9 counterexample: "aa:bb" contains a colon but non-numeric
components; the result is NaN (none), not the claimed integer 0. -/
theorem claim_C9_cex :
    ("aa:bb" : String) ≠ "" ∧ ("aa:bb" : String).toList.contains ':' = true ∧
    timeToMinutes "aa:bb" = none ∧ (none : JsNum) ≠ some 0 := by
  refine ⟨by decide, by decide, by decide, by simp⟩

/-- C9 witness: the amended statement applied at 09:30, at "24:00" and at
a colon-free malformed string. -/
theorem claim_C9_witness :
    (9 < 24 ∧ 30 < 60 ∧ timeToMinutes (mkTime 9 30) = some ((9 * 60 + 30 : ℕ) : ℚ)) ∧
    timeToMinutes "abc" = some 0 := by
  obtain ⟨h1, -, h3, -⟩ := claim_C9
  exact ⟨⟨by norm_num, by norm_num, h1 9 30 (by norm_num) (by norm_num)⟩,
    h3 "abc" (Or.inr (by decide))⟩

end Calendario
